import Mathlib

/-!
Verification of the `print` subsystem of `edgedb-cli`.

This development embeds the two-phase pretty-printing driver of
`src/print/mod.rs` (functions `format_rows_buf`, `format_rows`,
`_native_format`, `native_to_stdout`, `format_rows_str`, `json_to_string`,
`json_item_to_string`) together with a model of the printer token
operations (`open_block`, `close_block`, `comma`, `ellipsis`,
`reopen_block`, `end`) and of the render capability of printable items.

The token operations and the render capability live in the crate's
submodules `print/buffer.rs`, `print/formatter.rs` and `print/native.rs`,
which are not part of the sources under verification; they are modelled
from the specification (sections 3, 4.2, 4.3 and the glossary), as marked
on each definition.  The driver functions themselves are translated
directly from `src/print/mod.rs`.

Conventions of the embedding:
* the text buffer is a `List Char`; the commit offset counts characters
  where the Rust code counts bytes (rollback always happens at an
  emission boundary, so the two agree observably);
* styling is the identity (the spec states display width ignores style
  escape sequences, and no claim concerns escape bytes), so the `colors`
  flag and the style table are carried but do not affect the text;
* the asynchronous item stream is a materialized list of
  `Except ε Item` outcomes; `next()` takes the head;
* the output sink is an in-memory accumulator (the `String` sink of the
  JSON path; the terminal sink's write failures are not modelled, so the
  print-error side of `PrintError` is uninhabited);
* a Rust `panic!` / `unreachable!` (the `unwrap_exc` on a fallback
  signal) is modelled as the `none` result of an `Option`.
-/

deriving instance DecidableEq for Except

namespace EdgedbPrint

/-- Modelled from the spec: the `VectorLimit` type of `repl.rs` (not in
the verified sources): the cap on displayed numeric-vector elements,
unbounded when unset. -/
inductive VectorLimit where
  | unlimited
  | fixed (n : Nat)
deriving DecidableEq, Repr

/-- `Config` of `src/print/mod.rs` (the style table is omitted: styling
is modelled as the identity). -/
structure Config where
  colors : Option Bool
  indent : Nat
  expandStrings : Bool
  maxWidth : Option Nat
  implicitProperties : Bool
  maxItems : Option Nat
  maxVectorLength : VectorLimit
deriving DecidableEq, Repr

/-- `Config::new()` of `src/print/mod.rs`. -/
def Config.new : Config where
  colors := none
  indent := 2
  expandStrings := true
  maxWidth := none
  implicitProperties := false
  maxItems := none
  maxVectorLength := .unlimited

/-- Modelled from the spec: the pending-separator state of the printer
(`delim` field): "none / comma-pending". -/
inductive Delim where
  | none
  | comma
deriving DecidableEq, Repr

/-- The `Printer` state of `src/print/mod.rs` (config part plus mutable
layout state).  `buffer` is the speculative text, `output` is the
accumulated sink (`stream` field), `committed`/`committedIndent`/
`committedColumn` record the last confirmed point, `column` and
`curIndent` the cursor, `flow` whether a single-line attempt is in
progress. -/
structure Printer where
  colors : Bool
  indent : Nat
  expandStrings : Bool
  maxWidth : Nat
  implicitProperties : Bool
  maxItems : Option Nat
  maxVectorLength : VectorLimit
  trailingComma : Bool
  buffer : List Char
  output : List Char
  delim : Delim
  flow : Bool
  committed : Nat
  committedIndent : Nat
  committedColumn : Nat
  column : Nat
  curIndent : Nat
deriving DecidableEq, Repr

/-- Result of a printer token operation: either the updated printer, or
the `FallbackToBlock` (`DisableFlow`) signal carrying the rolled-back
printer state (the Rust operations mutate the printer in place, so the
state survives the raise). -/
inductive PRes where
  | ok (p : Printer)
  | fallback (p : Printer)
deriving DecidableEq, Repr

/-- Sequencing of token operations: propagate the fallback signal. -/
def PRes.andThen (r : PRes) (f : Printer → PRes) : PRes :=
  match r with
  | .ok p => f p
  | .fallback p => .fallback p

/-- Result of `open_block`: as `PRes` but the success case also returns
whether a new block boundary (a fresh flow attempt) was created. -/
inductive BRes where
  | ok (branch : Bool) (p : Printer)
  | fallback (p : Printer)
deriving DecidableEq, Repr

/-- `n` spaces. -/
def spaces (n : Nat) : List Char := List.replicate n ' '

namespace Printer

/-- Modelled from the spec: rollback on overflow — "raises
`FallbackToBlock` and leaves `buffer` truncated back to `committed`";
the cursor returns to the committed position. -/
def rollback (p : Printer) : Printer :=
  { p with buffer := p.buffer.take p.committed,
           column := p.committedColumn,
           curIndent := p.committedIndent }

/-- Unchecked text append (block-mode emission: "no such check applies
... overflow of an individual leaf token is accepted"). -/
def emitRaw (p : Printer) (s : String) : Printer :=
  { p with buffer := p.buffer ++ s.data, column := p.column + s.data.length }

/-- Modelled from the spec: the width algorithm — "every literal/styled-
text emission advances `column` by the text's display width; if `flow`
is true and the resulting `column` would exceed `max_width`, the
operation does not commit the partial write — it raises
`FallbackToBlock`". -/
def emit (p : Printer) (s : String) : PRes :=
  if p.flow ∧ p.maxWidth < p.column + s.data.length then
    .fallback p.rollback
  else
    .ok (p.emitRaw s)

/-- Start a fresh line at the current nesting indent (block mode: "each
item is given its own line at its nesting indent"). -/
def newline (p : Printer) : Printer :=
  { p with buffer := p.buffer ++ '\n' :: spaces (p.curIndent * p.indent),
           column := p.curIndent * p.indent }

/-- Modelled from the spec: flushing the pending separator before the
next content token — in flow mode a `", "` on the same line, in block
mode a `","` ending the previous item's line. -/
def flushDelim (p : Printer) : PRes :=
  match p.delim with
  | .none => .ok p
  | .comma =>
    if p.flow then
      emit { p with delim := Delim.none } ", "
    else
      .ok (newline (emitRaw { p with delim := Delim.none } ","))

/-- A content emission: flush the pending separator, then the
width-checked write of the text itself. -/
def write (p : Printer) (s : String) : PRes :=
  (p.flushDelim).andThen (fun p1 => p1.emit s)

/-- Modelled from the spec: `separator()` — "marks that a following item
needs a leading separator if more content arrives; does not emit
anything until the next token decides whether to honor it".  (Named
`comma` in the source.) -/
def comma (p : Printer) : Printer :=
  { p with delim := Delim.comma }

/-- Modelled from the spec: `ellipsis()` — "emits a truncation marker",
as an ordinary content emission. -/
def ellipsis (p : Printer) : PRes :=
  write p "..."

/-- Modelled from the spec: `open_block(label)` — emits the opening
token, increments `cur_indent`, pushes a fresh delimiter context and
reports whether a new block boundary (flow attempt) was created.  When
the printer is not already in flow mode this block becomes the flow
root: the label is written unchecked (the layout of last resort) and
the commit point is placed right after it, so a later fallback rolls
back to just after the opening token. -/
def openBlock (p : Printer) (label : String) : BRes :=
  match p.flushDelim with
  | .fallback q => .fallback q
  | .ok p1 =>
    if p1.flow then
      match p1.emit label with
      | .fallback q => .fallback q
      | .ok p2 => .ok false { p2 with curIndent := p2.curIndent + 1, delim := Delim.none }
    else
      let p2 := p1.emitRaw label
      .ok true { p2 with
        flow := true,
        curIndent := p2.curIndent + 1,
        delim := Delim.none,
        committed := p2.buffer.length,
        committedColumn := p2.column,
        committedIndent := p2.curIndent + 1 }

/-- Commit and leave flow mode when the block being closed is the flow
root (its inside indent equals `committedIndent`): reaching the close of
the root without overflow confirms the line fits. -/
def exitFlowIfRoot (p : Printer) (parent : Nat) : Printer :=
  if p.curIndent = p.committedIndent then
    { p with flow := false, curIndent := parent,
             committed := p.buffer.length,
             committedColumn := p.column,
             committedIndent := parent }
  else
    { p with curIndent := parent }

/-- Modelled from the spec: `close_block(label, allow_trailing_sep)` —
"flushes any pending separator according to `trailing_comma` and
block-emptiness, emits the closing token, decreases `cur_indent`".  In
block mode the closing token goes on its own line at the parent
indent. -/
def closeBlock (p : Printer) (label : String) (allowTrailingSep : Bool) : PRes :=
  let parent := p.curIndent - 1
  match p.delim with
  | .comma =>
    if p.flow then
      let sep := if p.trailingComma && allowTrailingSep then "," else ""
      match emit { p with delim := Delim.none } (sep ++ label) with
      | .fallback q => .fallback q
      | .ok p2 => .ok (exitFlowIfRoot p2 parent)
    else
      let p1 := { p with delim := Delim.none }
      let p2 := if p.trailingComma && allowTrailingSep then p1.emitRaw "," else p1
      .ok (emitRaw (newline { p2 with curIndent := parent }) label)
  | .none =>
    if p.flow then
      match p.emit label with
      | .fallback q => .fallback q
      | .ok p2 => .ok (exitFlowIfRoot p2 parent)
    else
      .ok (emitRaw (newline { p with curIndent := parent }) label)

/-- Modelled from the spec: `reopen_block()` — "re-establishes a block's
delimiter/indent context after a fallback, so that items already
rendered in flow mode can be discarded and regenerated in block mode
without duplicate open tokens": the buffer was already rolled back to
just after the opening token when the signal was raised; switch to
block mode and start the first item's line. -/
def reopenBlock (p : Printer) : Printer :=
  newline { p with flow := false, delim := Delim.none }

/-- Modelled from the spec: `end()` — "finalizes the buffer — in flow
mode, commits everything ...; in block mode, is a no-op beyond final
flush".  The buffer is flushed to the output sink. -/
def endRender (p : Printer) : Printer :=
  { p with committed := 0, committedColumn := 0,
           output := p.output ++ p.buffer, buffer := [] }

end Printer

/-- The printable value model (the flat closed set of variants of the
spec, restricted to the variants the claims exercise): a scalar rendered
as a literal, or a set of children rendered as a braced block. -/
inductive Item where
  | scalar (s : String)
  | set (xs : List Item)

/-!
The render capability (`FormatExt::format` of `print/native.rs`) is
modelled from the spec.  A scalar is a single literal emission.  A
composite opens a block (a flow attempt when not already inside one),
renders its children separated by `separator()`, and closes the block;
if the flow attempt of the block it itself opened overflows, it catches
the fallback signal, reopens the block in block mode and re-renders its
children (the per-block commit/rollback protocol).  A fallback signal
raised while an enclosing block is attempting flow propagates to that
enclosing attempt.
-/
mutual

/-- Modelled from the spec: the render capability of one item. -/
def Item.format : Item → Printer → PRes
  | .scalar s, p => p.write s
  | .set xs, p =>
    match p.openBlock "\x7b" with
    | .fallback q => .fallback q
    | .ok branch p1 =>
      match formatSetBody xs p1 with
      | .ok p2 => .ok p2
      | .fallback p2 =>
        if branch then
          formatSetBody xs p2.reopenBlock
        else
          .fallback p2

/-- Modelled from the spec: the body of a composite block — children in
order, each followed by the pending separator, then the block close. -/
def formatSetBody : List Item → Printer → PRes
  | [], p => p.closeBlock "\x7d" true
  | x :: xs, p =>
    match x.format p with
    | .fallback q => .fallback q
    | .ok p1 => formatSetBody xs p1.comma

end

/-- The exception channel of the printing subsystem (`Exception` of
`print/buffer.rs`): the recoverable layout signal `DisableFlow`
(`FallbackToBlock` of the spec) or a genuine error. -/
inductive Exc (ε : Type) where
  | disableFlow
  | error (e : ε)
deriving DecidableEq, Repr

/-- `PrintError` of `src/print/mod.rs`: a stream-read error or a
sink-write error.  The modelled sink (an in-memory accumulator) cannot
fail, so the print-error payload is `Empty`. -/
inductive PrintError (ε : Type) where
  | streamErr (e : ε)
  | printErr (e : Empty)
deriving DecidableEq, Repr

/-- The item stream: the materialized asynchronous sequence of
`Result<Item, E>` outcomes; `next()` takes the head. -/
abbrev Rows (ε : Type) := List (Except ε Item)

/-- The drain loop of `src/print/mod.rs` (`while
rows.next().await.transpose().wrap_err(StreamErr)?.is_some() {}`):
consume and discard the remaining items, stopping at the end of the
stream or at the first stream error (which propagates).  Returns the
suffix not pulled and the error, if any. -/
def drainRows {ε : Type} : Rows ε → Rows ε × Option ε
  | [] => ([], none)
  | .ok _ :: rest => drainRows rest
  | .error e :: rest => (rest, some e)

/-- The observable state when a driver loop returns: the printer, the
not-yet-pulled rest of the stream, the row buffer, and the outcome
(`none` for `Ok(())`). -/
structure LoopOut (ε : Type) where
  prn : Printer
  rows : Rows ε
  rowBuf : List Item
  exc : Option (Exc ε)

/-- The `while let` loop of `format_rows_buf` in `src/print/mod.rs`:
pull an item, push it onto the row buffer, emit the ellipsis and drain
once the buffer exceeds `max_items`, otherwise render the item and mark
the separator. -/
def frbLoop {ε : Type} (prn : Printer) (rows : Rows ε) (rowBuf : List Item) : LoopOut ε :=
  match rows with
  | [] => ⟨prn, [], rowBuf, none⟩
  | .error e :: rest => ⟨prn, rest, rowBuf, some (.error e)⟩
  | .ok v :: rest =>
    let rowBuf := rowBuf ++ [v]
    let over : Bool := match prn.maxItems with
      | some limit => decide (rowBuf.length > limit)
      | none => false
    if over then
      match prn.ellipsis with
      | .fallback q => ⟨q, rest, rowBuf, some .disableFlow⟩
      | .ok p1 =>
        let (rem, err) := drainRows rest
        match err with
        | some e => ⟨p1, rem, rowBuf, some (.error e)⟩
        | none => ⟨p1, rem, rowBuf, none⟩
    else
      match v.format prn with
      | .fallback q => ⟨q, rest, rowBuf, some .disableFlow⟩
      | .ok p1 => frbLoop p1.comma rest rowBuf

/-- `format_rows_buf` of `src/print/mod.rs` (Phase 1, the flow attempt):
open the outer block, run the pull-push-render loop, then set the
`end_of_stream` flag and close the block.  The returned `Bool` is the
final value of the `end_of_stream` out-parameter (initialized `false`
by the caller, set `true` only when the loop finishes without an
exception). -/
def format_rows_buf {ε : Type} (prn : Printer) (rows : Rows ε) : LoopOut ε × Bool :=
  match prn.openBlock "\x7b" with
  | .fallback q => (⟨q, rows, [], some .disableFlow⟩, false)
  | .ok _branch p1 =>
    let r := frbLoop p1 rows []
    match r.exc with
    | some e => (⟨r.prn, r.rows, r.rowBuf, some e⟩, false)
    | none =>
      match r.prn.closeBlock "\x7d" true with
      | .fallback q => (⟨q, r.rows, r.rowBuf, some .disableFlow⟩, true)
      | .ok p2 => (⟨p2, r.rows, r.rowBuf, none⟩, true)

/-- The `for v in buffered_rows` loop of `format_rows` in
`src/print/mod.rs`: replay the buffered items under the shared counter,
emitting the ellipsis and breaking once the counter exceeds
`max_items`.  Returns the printer outcome and the counter value. -/
def frFor (prn : Printer) (counter : Nat) : List Item → PRes × Nat
  | [] => (.ok prn, counter)
  | v :: vs =>
    let counter := counter + 1
    let over : Bool := match prn.maxItems with
      | some limit => decide (counter > limit)
      | none => false
    if over then
      (prn.ellipsis, counter)
    else
      match v.format prn with
      | .fallback q => (.fallback q, counter)
      | .ok p1 => frFor p1.comma counter vs

/-- The `while let` loop of `format_rows` in `src/print/mod.rs`:
continue pulling from the live stream under the shared counter, with
the same limit/ellipsis/drain rule. -/
def frWhile {ε : Type} (prn : Printer) (counter : Nat) (rows : Rows ε) : LoopOut ε :=
  match rows with
  | [] => ⟨prn, [], [], none⟩
  | .error e :: rest => ⟨prn, rest, [], some (.error e)⟩
  | .ok v :: rest =>
    let counter := counter + 1
    let over : Bool := match prn.maxItems with
      | some limit => decide (counter > limit)
      | none => false
    if over then
      match prn.ellipsis with
      | .fallback q => ⟨q, rest, [], some .disableFlow⟩
      | .ok p1 =>
        let (rem, err) := drainRows rest
        match err with
        | some e => ⟨p1, rem, [], some (.error e)⟩
        | none => ⟨p1, rem, [], none⟩
    else
      match v.format prn with
      | .fallback q => ⟨q, rest, [], some .disableFlow⟩
      | .ok p1 => frWhile p1.comma counter rest

/-- `format_rows` of `src/print/mod.rs` (Phase 2, the block replay):
reopen the outer block in block mode, replay the buffered rows, then
continue with the live stream, and close the block. -/
def format_rows {ε : Type} (prn : Printer) (bufferedRows : List Item) (rows : Rows ε) :
    LoopOut ε :=
  let p0 := prn.reopenBlock
  match frFor p0 0 bufferedRows with
  | (.fallback q, _) => ⟨q, rows, [], some .disableFlow⟩
  | (.ok p1, counter) =>
    let r := frWhile p1 counter rows
    match r.exc with
    | some e => ⟨r.prn, r.rows, [], some e⟩
    | none =>
      match r.prn.closeBlock "\x7d" true with
      | .fallback q => ⟨q, r.rows, [], some .disableFlow⟩
      | .ok p2 => ⟨p2, r.rows, [], none⟩

/-- The printer constructed by `_native_format` in `src/print/mod.rs`
(`trailing_comma: true`, buffers empty, block mode off, all counters
zero). -/
def nativePrinter (config : Config) (maxWidth : Nat) (colors : Bool) : Printer where
  colors := colors
  indent := config.indent
  expandStrings := config.expandStrings
  maxWidth := maxWidth
  implicitProperties := config.implicitProperties
  maxItems := config.maxItems
  maxVectorLength := config.maxVectorLength
  trailingComma := true
  buffer := []
  output := []
  delim := .none
  flow := false
  committed := 0
  committedIndent := 0
  committedColumn := 0
  column := 0
  curIndent := 0

/-- `_native_format` of `src/print/mod.rs`: run Phase 1; on `Ok` finish;
on a stream error propagate it; on `DisableFlow` run Phase 2 — but only
when the end-of-stream flag is still unset — then finalize via `end()`.
The `unwrap_exc()` on the Phase 2 result and on `end()` panics if it
sees `DisableFlow`; the panic is modelled as `none`.  The returned
string is the content flushed to the output sink. -/
def _native_format {ε : Type} (rows : Rows ε) (config : Config) (maxWidth : Nat)
    (colors : Bool) : Option (Except (PrintError ε) (List Char)) :=
  let prn := nativePrinter config maxWidth colors
  let (r, eos) := format_rows_buf prn rows
  match r.exc with
  | some (.error e) => some (.error (.streamErr e))
  | some .disableFlow =>
    if eos then
      some (.ok r.prn.endRender.output)
    else
      let r2 := format_rows r.prn r.rowBuf r.rows
      match r2.exc with
      | some .disableFlow => none
      | some (.error e) => some (.error (.streamErr e))
      | none => some (.ok r2.prn.endRender.output)
  | none => some (.ok r.prn.endRender.output)

/-- `native_to_stdout` of `src/print/mod.rs`: the effective width is the
configured `max_width` when set, else the terminal width, else 80; the
color choice is the configured one, else whether stdout is a terminal.
The ambient environment (`terminal_size()`, `is_terminal()`) is passed
explicitly. -/
def native_to_stdout {ε : Type} (rows : Rows ε) (config : Config)
    (terminalWidth : Option Nat) (stdoutIsTerminal : Bool) :
    Option (Except (PrintError ε) (List Char)) :=
  let w := config.maxWidth.getD (terminalWidth.getD 80)
  let colors := config.colors.getD stdoutIsTerminal
  _native_format rows config w colors

/-- The loop of `format_rows_str` in `src/print/mod.rs`: each item of
the slice rendered then the separator, and the closing token. -/
def frsLoop (items : List Item) (closeLabel : String) (prn : Printer) : PRes :=
  match items with
  | [] => prn.closeBlock closeLabel true
  | v :: vs =>
    match v.format prn with
    | .fallback q => .fallback q
    | .ok p1 => frsLoop vs closeLabel p1.comma

/-- `format_rows_str` of `src/print/mod.rs`: open (or, on the retry,
reopen) the outer block and render the pre-materialized items. -/
def format_rows_str (prn : Printer) (items : List Item) (openLabel closeLabel : String)
    (reopen : Bool) : PRes :=
  if reopen then
    frsLoop items closeLabel prn.reopenBlock
  else
    match prn.openBlock openLabel with
    | .fallback q => .fallback q
    | .ok _cp p1 => frsLoop items closeLabel p1

/-- The printer constructed by `json_to_string` / `json_item_to_string`
in `src/print/mod.rs`: `trailing_comma: false`, width defaulting to 80,
colors defaulting to off. -/
def jsonPrinter (config : Config) : Printer where
  colors := config.colors.getD false
  indent := config.indent
  expandStrings := config.expandStrings
  maxWidth := config.maxWidth.getD 80
  implicitProperties := config.implicitProperties
  maxItems := config.maxItems
  maxVectorLength := config.maxVectorLength
  trailingComma := false
  buffer := []
  output := []
  delim := .none
  flow := false
  committed := 0
  committedIndent := 0
  committedColumn := 0
  column := 0
  curIndent := 0

/-- `json_to_string` of `src/print/mod.rs`: attempt the flow rendering
of the item slice as a `[...]` block; on `DisableFlow` retry in block
mode (`reopen = true`), where a further `DisableFlow` would panic in
`unwrap_exc` (modelled as `none`); finalize via `end()`.  The error
type is `Infallible`, modelled as `Empty`. -/
def json_to_string (items : List Item) (config : Config) :
    Option (Except Empty (List Char)) :=
  let prn := jsonPrinter config
  match format_rows_str prn items "[" "]" false with
  | .ok p => some (.ok p.endRender.output)
  | .fallback p =>
    match format_rows_str p items "[" "]" true with
    | .ok p2 => some (.ok p2.endRender.output)
    | .fallback _ => none

/-- `json_item_to_string` of `src/print/mod.rs`: render a single item;
the `DisableFlow` arm of the match is `unreachable!`, modelled as
`none`; finalize via `end()`. -/
def json_item_to_string (item : Item) (config : Config) :
    Option (Except Empty (List Char)) :=
  let prn := jsonPrinter config
  match item.format prn with
  | .ok p => some (.ok p.endRender.output)
  | .fallback _ => none

/-! ## Invariants of the token operations -/

/-- The configuration fields and the flushed output are never touched by
the token operations. -/
def SameCfg (p q : Printer) : Prop :=
  q.colors = p.colors ∧ q.indent = p.indent ∧ q.expandStrings = p.expandStrings ∧
  q.maxWidth = p.maxWidth ∧ q.implicitProperties = p.implicitProperties ∧
  q.maxItems = p.maxItems ∧ q.maxVectorLength = p.maxVectorLength ∧
  q.trailingComma = p.trailingComma ∧ q.output = p.output

theorem SameCfg.cfgRefl (p : Printer) : SameCfg p p := by
  simp [SameCfg]

theorem SameCfg.cfgTrans {p q r : Printer} (h1 : SameCfg p q) (h2 : SameCfg q r) :
    SameCfg p r := by
  obtain ⟨a1, a2, a3, a4, a5, a6, a7, a8, a9⟩ := h1
  obtain ⟨b1, b2, b3, b4, b5, b6, b7, b8, b9⟩ := h2
  exact ⟨b1.trans a1, b2.trans a2, b3.trans a3, b4.trans a4, b5.trans a5,
         b6.trans a6, b7.trans a7, b8.trans a8, b9.trans a9⟩

/-- The commit point (offset, indent, column) is frozen while a flow
attempt is in progress. -/
def SameCommitted (p q : Printer) : Prop :=
  q.committed = p.committed ∧ q.committedIndent = p.committedIndent ∧
  q.committedColumn = p.committedColumn

theorem SameCommitted.refl (p : Printer) : SameCommitted p p := ⟨rfl, rfl, rfl⟩

theorem SameCommitted.trans {p q r : Printer} (h1 : SameCommitted p q)
    (h2 : SameCommitted q r) : SameCommitted p r :=
  ⟨h2.1.trans h1.1, h2.2.1.trans h1.2.1, h2.2.2.trans h1.2.2⟩

/-- Outcome invariant of a token operation or render step executed while
a flow attempt is in progress (`flow = true`, with the committed prefix
inside the buffer): on success the flow attempt continues at the same
nesting level with the commit point frozen and the committed prefix
intact; on a fallback the printer is rolled back to the commit point. -/
def FlowOut (p : Printer) (r : PRes) : Prop :=
  match r with
  | .ok p' => p'.flow = true ∧ p'.curIndent = p.curIndent ∧ SameCommitted p p' ∧
      SameCfg p p' ∧ p'.buffer.take p.committed = p.buffer.take p.committed ∧
      p.committed ≤ p'.buffer.length
  | .fallback q => q.flow = true ∧ q.curIndent = p.committedIndent ∧
      SameCommitted p q ∧ SameCfg p q ∧ q.buffer = p.buffer.take p.committed ∧
      q.column = p.committedColumn

/-- Outcome invariant of a step executed in block mode (`flow = false`):
it always succeeds and stays in block mode at the same nesting level. -/
def BlockOut (p : Printer) (r : PRes) : Prop :=
  match r with
  | .ok p' => p'.flow = false ∧ p'.curIndent = p.curIndent ∧ SameCfg p p'
  | .fallback _ => False

theorem emitRaw_fields (p : Printer) (s : String) :
    (p.emitRaw s).flow = p.flow ∧ (p.emitRaw s).curIndent = p.curIndent ∧
    SameCommitted p (p.emitRaw s) ∧ SameCfg p (p.emitRaw s) ∧
    (p.emitRaw s).delim = p.delim ∧
    (p.emitRaw s).buffer = p.buffer ++ s.data := by
  simp [Printer.emitRaw, SameCommitted, SameCfg]

theorem newline_fields (p : Printer) :
    (p.newline).flow = p.flow ∧ (p.newline).curIndent = p.curIndent ∧
    SameCommitted p p.newline ∧ SameCfg p p.newline ∧
    (p.newline).delim = p.delim := by
  simp [Printer.newline, SameCommitted, SameCfg]

theorem comma_fields (p : Printer) :
    (p.comma).flow = p.flow ∧ (p.comma).curIndent = p.curIndent ∧
    SameCommitted p p.comma ∧ SameCfg p p.comma ∧
    (p.comma).buffer = p.buffer ∧ (p.comma).committed = p.committed := by
  simp [Printer.comma, SameCommitted, SameCfg]

/-- A width-checked emission in block mode always succeeds. -/
theorem emit_block {p : Printer} (s : String) (h : p.flow = false) :
    p.emit s = .ok (p.emitRaw s) := by
  simp [Printer.emit, h]

/-- A width-checked emission during a flow attempt satisfies the flow
invariant. -/
theorem emit_flow {p : Printer} (s : String) (h : p.flow = true)
    (hc : p.committed ≤ p.buffer.length) : FlowOut p (p.emit s) := by
  unfold Printer.emit
  by_cases hw : p.maxWidth < p.column + s.data.length
  · simp only [h, hw, and_self, if_pos, true_and]
    simp [FlowOut, Printer.rollback, SameCommitted, SameCfg, h]
  · simp only [h, hw, and_false, if_neg, not_false_iff]
    refine ⟨(emitRaw_fields p s).1.trans h, (emitRaw_fields p s).2.1, ?_, ?_, ?_, ?_⟩
    · exact (emitRaw_fields p s).2.2.1
    · exact (emitRaw_fields p s).2.2.2.1
    · simp [Printer.emitRaw, List.take_append_of_le_length hc]
    · simp [Printer.emitRaw]
      omega

/-- The flow invariant ignores the pending-separator state of its
reference printer. -/
theorem FlowOut_set_delim {p : Printer} {d : Delim} {r : PRes}
    (h : FlowOut { p with delim := d } r) : FlowOut p r := by
  cases r <;> simpa [FlowOut, SameCommitted, SameCfg] using h

theorem flushDelim_block {p : Printer} (h : p.flow = false) :
    ∃ p', p.flushDelim = .ok p' ∧ p'.flow = false ∧ p'.curIndent = p.curIndent ∧
      SameCfg p p' ∧ p'.delim = Delim.none := by
  rcases p with ⟨co, ind, es, mw, ip, mi, mv, tc, buf, out, dl, fl, cm, ci, cc, col, cu⟩
  simp only at h
  subst h
  cases dl with
  | none => exact ⟨_, rfl, rfl, rfl, SameCfg.cfgRefl _, rfl⟩
  | comma =>
    refine ⟨_, rfl, ?_, ?_, ?_, ?_⟩ <;>
      simp [Printer.flushDelim, Printer.newline, Printer.emitRaw, SameCfg]

/-- Flushing the pending separator during a flow attempt satisfies the
flow invariant. -/
theorem flushDelim_flow {p : Printer} (h : p.flow = true)
    (hc : p.committed ≤ p.buffer.length) : FlowOut p (p.flushDelim) := by
  rcases p with ⟨co, ind, es, mw, ip, mi, mv, tc, buf, out, dl, fl, cm, ci, cc, col, cu⟩
  simp only at h
  subst h
  cases dl with
  | none =>
    exact ⟨rfl, rfl, SameCommitted.refl _, SameCfg.cfgRefl _, rfl, hc⟩
  | comma =>
    show FlowOut _ (Printer.emit _ ", ")
    exact FlowOut_set_delim (emit_flow ", " rfl hc)

/-- A content emission (`write`) in block mode always succeeds. -/
theorem write_block {p : Printer} (s : String) (h : p.flow = false) :
    ∃ p', p.write s = .ok p' ∧ p'.flow = false ∧ p'.curIndent = p.curIndent ∧
      SameCfg p p' := by
  obtain ⟨p1, h1, hf1, hi1, hcfg1, _⟩ := flushDelim_block h
  refine ⟨p1.emitRaw s, ?_, ?_, ?_, ?_⟩
  · simp [Printer.write, h1, PRes.andThen, emit_block s hf1]
  · exact (emitRaw_fields p1 s).1.trans hf1
  · exact (emitRaw_fields p1 s).2.1.trans hi1
  · exact SameCfg.cfgTrans hcfg1 (emitRaw_fields p1 s).2.2.2.1

/-- A content emission (`write`) during a flow attempt satisfies the
flow invariant. -/
theorem write_flow {p : Printer} (s : String) (h : p.flow = true)
    (hc : p.committed ≤ p.buffer.length) : FlowOut p (p.write s) := by
  unfold Printer.write
  have h1 := flushDelim_flow h hc
  cases hq : p.flushDelim with
  | fallback q =>
    rw [hq] at h1
    exact h1
  | ok p1 =>
    rw [hq] at h1
    obtain ⟨hf1, hi1, hcm1, hcfg1, hbuf1, hle1⟩ := h1
    simp only [PRes.andThen]
    have h2 := emit_flow (p := p1) s hf1 (by rw [hcm1.1]; exact hle1)
    cases hq2 : p1.emit s with
    | ok p2 =>
      rw [hq2] at h2
      obtain ⟨hf2, hi2, hcm2, hcfg2, hbuf2, hle2⟩ := h2
      refine ⟨hf2, hi2.trans hi1, hcm1.trans hcm2, SameCfg.cfgTrans hcfg1 hcfg2, ?_, ?_⟩
      · rw [← hbuf1]
        rw [hcm1.1] at hbuf2
        exact hbuf2
      · rw [hcm1.1] at hle2
        exact hle2
    | fallback q =>
      rw [hq2] at h2
      obtain ⟨hf2, hi2, hcm2, hcfg2, hbuf2, hcol2⟩ := h2
      refine ⟨hf2, by rw [hi2, hcm1.2.1], hcm1.trans hcm2,
        SameCfg.cfgTrans hcfg1 hcfg2, ?_, by rw [hcol2, hcm1.2.2]⟩
      rw [hbuf2, hcm1.1, hbuf1]

theorem reopenBlock_fields (p : Printer) :
    (p.reopenBlock).flow = false ∧ (p.reopenBlock).curIndent = p.curIndent ∧
    SameCfg p p.reopenBlock ∧ (p.reopenBlock).delim = Delim.none := by
  simp [Printer.reopenBlock, Printer.newline, SameCfg]

/-- Outcome invariant of `open_block` during an enclosing flow attempt:
no new block boundary, one deeper nesting level, commit point frozen. -/
def OpenFlowOut (p : Printer) (r : BRes) : Prop :=
  match r with
  | .ok b p' => b = false ∧ p'.flow = true ∧ p'.curIndent = p.curIndent + 1 ∧
      SameCommitted p p' ∧ SameCfg p p' ∧
      p'.buffer.take p.committed = p.buffer.take p.committed ∧
      p.committed ≤ p'.buffer.length
  | .fallback q => q.flow = true ∧ q.curIndent = p.committedIndent ∧
      SameCommitted p q ∧ SameCfg p q ∧ q.buffer = p.buffer.take p.committed ∧
      q.column = p.committedColumn

theorem openBlock_flow {p : Printer} (label : String) (h : p.flow = true)
    (hc : p.committed ≤ p.buffer.length) : OpenFlowOut p (p.openBlock label) := by
  unfold Printer.openBlock
  have h1 := flushDelim_flow h hc
  cases hq : p.flushDelim with
  | fallback q =>
    rw [hq] at h1
    exact h1
  | ok p1 =>
    rw [hq] at h1
    obtain ⟨hf1, hi1, hcm1, hcfg1, hbuf1, hle1⟩ := h1
    simp only [hf1, if_pos]
    have h2 := emit_flow (p := p1) label hf1 (by rw [hcm1.1]; exact hle1)
    cases hq2 : p1.emit label with
    | fallback q =>
      rw [hq2] at h2
      obtain ⟨hf2, hi2, hcm2, hcfg2, hbuf2, hcol2⟩ := h2
      exact ⟨hf2, by rw [hi2, hcm1.2.1], hcm1.trans hcm2, SameCfg.cfgTrans hcfg1 hcfg2,
        by rw [hbuf2, hcm1.1, hbuf1], by rw [hcol2, hcm1.2.2]⟩
    | ok p2 =>
      rw [hq2] at h2
      obtain ⟨hf2, hi2, hcm2, hcfg2, hbuf2, hle2⟩ := h2
      refine ⟨rfl, hf2, by rw [hi2, hi1], hcm1.trans hcm2, ?_, ?_, ?_⟩
      · exact SameCfg.cfgTrans hcfg1 (by simpa [SameCfg] using hcfg2)
      · rw [hcm1.1] at hbuf2
        show p2.buffer.take _ = _
        rw [hbuf2, hbuf1]
      · rw [hcm1.1] at hle2
        simpa using hle2

theorem openBlock_block {p : Printer} (label : String) (h : p.flow = false) :
    ∃ p', p.openBlock label = .ok true p' ∧ p'.flow = true ∧
      p'.curIndent = p.curIndent + 1 ∧ p'.committedIndent = p.curIndent + 1 ∧
      p'.committed = p'.buffer.length ∧ p'.committedColumn = p'.column ∧
      p'.delim = Delim.none ∧ SameCfg p p' ∧
      p'.buffer = p.buffer ++ (match p.delim with
        | Delim.none => label.data
        | Delim.comma => ',' :: '\n' :: spaces (p.curIndent * p.indent) ++ label.data) := by
  obtain ⟨p1, h1, hf1, hi1, hcfg1, hd1⟩ := flushDelim_block h
  unfold Printer.openBlock
  rw [h1]
  simp only [hf1, Bool.false_eq_true, if_false]
  obtain ⟨c1, c2, c3, c4, c5, c6, c7, c8, c9⟩ := hcfg1
  refine ⟨_, rfl, rfl, by simpa [Printer.emitRaw] using hi1, by simpa [Printer.emitRaw] using hi1,
    rfl, rfl, rfl, ?_, ?_⟩
  · simp only [SameCfg, Printer.emitRaw]
    exact ⟨c1, c2, c3, c4, c5, c6, c7, c8, c9⟩
  · show p1.buffer ++ label.data = _
    rcases p with ⟨co, ind, es, mw, ip, mi, mv, tc, buf, out, dl, fl, cm, ci, cc, col, cu⟩
    simp only at h
    subst h
    cases dl with
    | none =>
      simp [Printer.flushDelim] at h1
      subst h1
      rfl
    | comma =>
      simp [Printer.flushDelim, Printer.newline, Printer.emitRaw] at h1
      subst h1
      simp [c2]

/-- Outcome invariant of closing a block (or rendering a block body up
to and including its close) during a flow attempt: on success the
nesting level drops by one, and closing the flow root itself commits
and leaves flow mode while closing a nested block keeps the attempt
going; on a fallback the printer is rolled back to the commit point. -/
def RootFlowOut (p : Printer) (r : PRes) : Prop :=
  match r with
  | .ok p' => p'.curIndent = p.curIndent - 1 ∧ SameCfg p p' ∧
      (if p.curIndent = p.committedIndent then p'.flow = false
       else p'.flow = true ∧ SameCommitted p p' ∧
            p'.buffer.take p.committed = p.buffer.take p.committed ∧
            p.committed ≤ p'.buffer.length)
  | .fallback q => q.flow = true ∧ q.curIndent = p.committedIndent ∧
      SameCommitted p q ∧ SameCfg p q ∧ q.buffer = p.buffer.take p.committed ∧
      q.column = p.committedColumn

theorem exitFlowIfRoot_spec (p : Printer) (parent : Nat) :
    ((p.exitFlowIfRoot parent).curIndent = parent ∧
     SameCfg p (p.exitFlowIfRoot parent) ∧
     (p.exitFlowIfRoot parent).buffer = p.buffer ∧
     (p.exitFlowIfRoot parent).delim = p.delim) ∧
    (p.curIndent = p.committedIndent → (p.exitFlowIfRoot parent).flow = false) ∧
    (p.curIndent ≠ p.committedIndent →
      (p.exitFlowIfRoot parent).flow = p.flow ∧
      SameCommitted p (p.exitFlowIfRoot parent)) := by
  unfold Printer.exitFlowIfRoot
  by_cases hroot : p.curIndent = p.committedIndent <;>
    simp [hroot, SameCfg, SameCommitted]

/-- The success/fallback analysis shared by the flow branches of
`close_block`: a width-checked emission followed by `exitFlowIfRoot`
satisfies the root flow invariant. -/
theorem emitExit_root {p pd : Printer} (s : String)
    (hflow : FlowOut p (pd.emit s)) :
    RootFlowOut p (match pd.emit s with
      | .fallback q => .fallback q
      | .ok p2 => .ok (p2.exitFlowIfRoot (p.curIndent - 1))) := by
  cases hq : pd.emit s with
  | fallback q =>
    rw [hq] at hflow
    exact hflow
  | ok p2 =>
    rw [hq] at hflow
    obtain ⟨hf2, hi2, hcm2, hcfg2, hbuf2, hle2⟩ := hflow
    obtain ⟨⟨e1, e2, e3, _⟩, eroot, enroot⟩ := exitFlowIfRoot_spec p2 (p.curIndent - 1)
    refine ⟨e1, SameCfg.cfgTrans hcfg2 e2, ?_⟩
    by_cases hroot : p.curIndent = p.committedIndent
    · have hr2 : p2.curIndent = p2.committedIndent := by
        rw [hi2, hcm2.2.1, hroot]
      rw [if_pos hroot]
      exact eroot hr2
    · have hne : p2.curIndent ≠ p2.committedIndent := by
        rw [hi2, hcm2.2.1]
        exact hroot
      obtain ⟨g1, g2⟩ := enroot hne
      rw [if_neg hroot]
      exact ⟨g1.trans hf2, hcm2.trans g2, by rw [e3]; exact hbuf2,
        by rw [e3]; exact hle2⟩

theorem closeBlock_flow {p : Printer} (label : String) (ats : Bool)
    (h : p.flow = true) (hc : p.committed ≤ p.buffer.length) :
    RootFlowOut p (p.closeBlock label ats) := by
  unfold Printer.closeBlock
  cases hd : p.delim with
  | comma =>
    dsimp only
    rw [if_pos h]
    exact emitExit_root _ (FlowOut_set_delim (emit_flow _ h hc))
  | none =>
    dsimp only
    rw [if_pos h]
    exact emitExit_root _ (emit_flow _ h hc)

theorem closeBlock_block {p : Printer} (label : String) (ats : Bool)
    (h : p.flow = false) :
    ∃ p', p.closeBlock label ats = .ok p' ∧ p'.flow = false ∧
      p'.curIndent = p.curIndent - 1 ∧ SameCfg p p' := by
  rcases p with ⟨co, ind, es, mw, ip, mi, mv, tc, buf, out, dl, fl, cm, ci, cc, col, cu⟩
  simp only at h
  subst h
  cases dl <;> cases tc <;> cases ats <;>
    exact ⟨_, rfl, by simp [Printer.closeBlock, Printer.newline, Printer.emitRaw],
           by simp [Printer.closeBlock, Printer.newline, Printer.emitRaw],
           by simp [Printer.closeBlock, Printer.newline, Printer.emitRaw, SameCfg]⟩

/-- The root flow invariant ignores the pending-separator state of its
reference printer. -/
theorem RootFlowOut_comma {p : Printer} {r : PRes}
    (h : RootFlowOut p.comma r) : RootFlowOut p r := by
  cases r <;>
    simp_all [RootFlowOut, Printer.comma, SameCommitted, SameCfg]

/-! ## The render capability: flow invariants and block-mode totality -/

mutual

/-- Rendering an item while an enclosing flow attempt is in progress
satisfies the flow invariant: it either succeeds at the same nesting
level with the commit point frozen, or it signals fallback with the
printer rolled back to the commit point. -/
theorem format_flow (x : Item) (p : Printer) (h : p.flow = true)
    (hle : p.committedIndent ≤ p.curIndent) (hc : p.committed ≤ p.buffer.length) :
    FlowOut p (x.format p) := by
  cases x with
  | scalar s => exact write_flow s h hc
  | set xs =>
    rw [Item.format]
    cases hq : p.openBlock "\x7b" with
    | fallback q =>
      have ho := openBlock_flow "\x7b" h hc
      rw [hq] at ho
      dsimp only
      exact ho
    | ok b p1 =>
      have ho := openBlock_flow "\x7b" h hc
      rw [hq] at ho
      obtain ⟨hb, hf1, hi1, hcm1, hcfg1, hbuf1, hle1⟩ := ho
      subst hb
      dsimp only
      have hbody := body_flow xs p1 hf1
        (by rw [hcm1.2.1, hi1]; omega)
        (by rw [hcm1.1]; exact hle1)
      cases hq2 : formatSetBody xs p1 with
      | ok p2 =>
        rw [hq2] at hbody
        dsimp only
        obtain ⟨hi2, hcfg2, hif⟩ := hbody
        have hne : ¬(p1.curIndent = p1.committedIndent) := by
          rw [hi1, hcm1.2.1]
          omega
        rw [if_neg hne] at hif
        obtain ⟨hf2, hcm2, hbuf2, hle2⟩ := hif
        refine ⟨hf2, by rw [hi2, hi1]; omega, hcm1.trans hcm2,
          SameCfg.cfgTrans hcfg1 hcfg2, ?_, ?_⟩
        · rw [hcm1.1] at hbuf2
          rw [hbuf2, hbuf1]
        · rw [hcm1.1] at hle2
          exact hle2
      | fallback p2 =>
        rw [hq2] at hbody
        dsimp only
        obtain ⟨hf2, hi2, hcm2, hcfg2, hbuf2, hcol2⟩ := hbody
        simp only [Bool.false_eq_true, if_false]
        exact ⟨hf2, by rw [hi2, hcm1.2.1], hcm1.trans hcm2,
          SameCfg.cfgTrans hcfg1 hcfg2, by rw [hbuf2, hcm1.1, hbuf1],
          by rw [hcol2, hcm1.2.2]⟩

/-- Rendering a block body (children plus close) while a flow attempt
is in progress satisfies the root flow invariant. -/
theorem body_flow (xs : List Item) (p : Printer) (h : p.flow = true)
    (hle : p.committedIndent ≤ p.curIndent) (hc : p.committed ≤ p.buffer.length) :
    RootFlowOut p (formatSetBody xs p) := by
  cases xs with
  | nil =>
    rw [formatSetBody]
    exact closeBlock_flow "\x7d" true h hc
  | cons x xs =>
    rw [formatSetBody]
    cases hq : x.format p with
    | fallback q =>
      have hx := format_flow x p h hle hc
      rw [hq] at hx
      dsimp only
      exact hx
    | ok p1 =>
      have hx := format_flow x p h hle hc
      rw [hq] at hx
      dsimp only
      obtain ⟨hf1, hi1, hcm1, hcfg1, hbuf1, hle1⟩ := hx
      have hrest := RootFlowOut_comma (body_flow xs p1.comma
        (by simp [Printer.comma, hf1])
        (by simp only [Printer.comma]; rw [hcm1.2.1, hi1]; exact hle)
        (by simp only [Printer.comma]; rw [hcm1.1]; exact hle1))
      cases hq2 : formatSetBody xs p1.comma with
      | ok p2 =>
        rw [hq2] at hrest
        obtain ⟨hi2, hcfg2, hif⟩ := hrest
        refine ⟨by rw [hi2, hi1], SameCfg.cfgTrans hcfg1 hcfg2, ?_⟩
        by_cases hroot : p.curIndent = p.committedIndent
        · rw [if_pos hroot]
          rw [if_pos (by rw [hi1, hcm1.2.1]; exact hroot)] at hif
          exact hif
        · rw [if_neg hroot]
          rw [if_neg (by rw [hi1, hcm1.2.1]; exact hroot)] at hif
          obtain ⟨g1, g2, g3, g4⟩ := hif
          refine ⟨g1, hcm1.trans g2, ?_, ?_⟩
          · rw [hcm1.1] at g3
            rw [g3, hbuf1]
          · rw [hcm1.1] at g4
            exact g4
      | fallback p2 =>
        rw [hq2] at hrest
        obtain ⟨g0, g1, g2, g3, g4, g5⟩ := hrest
        exact ⟨g0, by rw [g1, hcm1.2.1], hcm1.trans g2, SameCfg.cfgTrans hcfg1 g3,
          by rw [g4, hcm1.1, hbuf1], by rw [g5, hcm1.2.2]⟩

/-- Rendering an item in block mode always succeeds, stays in block
mode, and returns to the same nesting level. -/
theorem format_block (x : Item) (p : Printer) (h : p.flow = false) :
    ∃ p', x.format p = .ok p' ∧ p'.flow = false ∧ p'.curIndent = p.curIndent ∧
      SameCfg p p' := by
  cases x with
  | scalar s =>
    obtain ⟨p', h1, h2, h3, h4⟩ := write_block s h
    exact ⟨p', h1, h2, h3, h4⟩
  | set xs =>
    rw [Item.format]
    obtain ⟨p1, hq, hf1, hi1, hci1, hcb1, hcc1, hd1, hcfg1, _⟩ := openBlock_block "\x7b" h
    rw [hq]
    dsimp only
    have hbody := body_flow xs p1 hf1 (le_of_eq (by rw [hci1, hi1]))
      (le_of_eq hcb1)
    cases hq2 : formatSetBody xs p1 with
    | ok p2 =>
      rw [hq2] at hbody
      dsimp only
      obtain ⟨hi2, hcfg2, hif⟩ := hbody
      rw [if_pos (by rw [hci1, hi1])] at hif
      exact ⟨p2, rfl, hif, by rw [hi2, hi1]; omega, SameCfg.cfgTrans hcfg1 hcfg2⟩
    | fallback p2 =>
      rw [hq2] at hbody
      dsimp only
      obtain ⟨hf2, hi2, hcm2, hcfg2, hbuf2, hcol2⟩ := hbody
      have hro := reopenBlock_fields p2
      obtain ⟨p3, h3eq, h3f, h3i, h3cfg⟩ := body_block xs p2.reopenBlock hro.1
      rw [if_pos rfl, h3eq]
      refine ⟨p3, rfl, h3f, ?_, ?_⟩
      · rw [h3i, hro.2.1, hi2, hci1]
        omega
      · exact SameCfg.cfgTrans (SameCfg.cfgTrans (SameCfg.cfgTrans hcfg1 hcfg2) hro.2.2.1) h3cfg

/-- Rendering a block body in block mode always succeeds, stays in
block mode and closes one nesting level. -/
theorem body_block (xs : List Item) (p : Printer) (h : p.flow = false) :
    ∃ p', formatSetBody xs p = .ok p' ∧ p'.flow = false ∧
      p'.curIndent = p.curIndent - 1 ∧ SameCfg p p' := by
  cases xs with
  | nil =>
    rw [formatSetBody]
    exact closeBlock_block "\x7d" true h
  | cons x xs =>
    rw [formatSetBody]
    obtain ⟨p1, hq, hf1, hi1, hcfg1⟩ := format_block x p h
    rw [hq]
    dsimp only
    have hcom := comma_fields p1
    obtain ⟨p2, h2eq, h2f, h2i, h2cfg⟩ := body_block xs p1.comma
      (by rw [hcom.1]; exact hf1)
    refine ⟨p2, h2eq, h2f, ?_, ?_⟩
    · rw [h2i, hcom.2.1, hi1]
    · exact SameCfg.cfgTrans (SameCfg.cfgTrans hcfg1 hcom.2.2.2.1) h2cfg

end

/-! ## Block-mode totality of the Phase 2 driver loops -/

theorem ellipsis_block {p : Printer} (h : p.flow = false) :
    ∃ p', p.ellipsis = .ok p' ∧ p'.flow = false ∧ p'.curIndent = p.curIndent ∧
      SameCfg p p' :=
  write_block "..." h

/-- The Phase 2 replay loop over the buffered rows never signals
fallback when started in block mode. -/
theorem frFor_block (vs : List Item) (p : Printer) (c : Nat) (h : p.flow = false) :
    ∃ p', (frFor p c vs).1 = .ok p' ∧ p'.flow = false ∧
      p'.curIndent = p.curIndent ∧ SameCfg p p' := by
  induction vs generalizing p c with
  | nil => exact ⟨p, rfl, h, rfl, SameCfg.cfgRefl p⟩
  | cons v vs ih =>
    rw [frFor]
    by_cases hover : (match p.maxItems with
      | some limit => decide (c + 1 > limit)
      | none => false) = true
    · rw [if_pos hover]
      obtain ⟨p', h1, h2, h3, h4⟩ := ellipsis_block h
      exact ⟨p', by rw [h1], h2, h3, h4⟩
    · rw [if_neg hover]
      obtain ⟨p1, h1, hf1, hi1, hcfg1⟩ := format_block v p h
      rw [h1]
      dsimp only
      obtain ⟨p2, h2, hf2, hi2, hcfg2⟩ := ih p1.comma (c + 1)
        (by rw [(comma_fields p1).1]; exact hf1)
      refine ⟨p2, h2, hf2, ?_, ?_⟩
      · rw [hi2, (comma_fields p1).2.1, hi1]
      · exact SameCfg.cfgTrans (SameCfg.cfgTrans hcfg1 (comma_fields p1).2.2.2.1) hcfg2

/-- The Phase 2 streaming loop never signals fallback when started in
block mode: it either finishes cleanly or propagates a stream error. -/
theorem frWhile_block {ε : Type} (rows : Rows ε) (p : Printer) (c : Nat)
    (h : p.flow = false) :
    (∃ e, (frWhile p c rows).exc = some (.error e)) ∨
    ((frWhile p c rows).exc = none ∧ (frWhile p c rows).prn.flow = false ∧
     (frWhile p c rows).prn.curIndent = p.curIndent ∧
     SameCfg p (frWhile p c rows).prn) := by
  induction rows generalizing p c with
  | nil => exact Or.inr ⟨rfl, h, rfl, SameCfg.cfgRefl p⟩
  | cons row rest ih =>
    cases row with
    | error e => exact Or.inl ⟨e, rfl⟩
    | ok v =>
      rw [frWhile]
      dsimp only
      by_cases hover : (match p.maxItems with
        | some limit => decide (c + 1 > limit)
        | none => false) = true
      · rw [if_pos hover]
        obtain ⟨p1, h1, hf1, hi1, hcfg1⟩ := ellipsis_block h
        rw [h1]
        dsimp only
        rcases hdr : drainRows rest with ⟨rem, err⟩
        cases err with
        | some e => exact Or.inl ⟨e, rfl⟩
        | none => exact Or.inr ⟨rfl, hf1, hi1, hcfg1⟩
      · rw [if_neg hover]
        obtain ⟨p1, h1, hf1, hi1, hcfg1⟩ := format_block v p h
        rw [h1]
        dsimp only
        rcases ih p1.comma (c + 1) (by rw [(comma_fields p1).1]; exact hf1) with
          he | ⟨g1, g2, g3, g4⟩
        · exact Or.inl he
        · refine Or.inr ⟨g1, g2, ?_, ?_⟩
          · rw [g3, (comma_fields p1).2.1, hi1]
          · exact SameCfg.cfgTrans (SameCfg.cfgTrans hcfg1 (comma_fields p1).2.2.2.1) g4

/-- Phase 2 as a whole (`format_rows`) never returns the fallback
signal: its outcome is success or a stream error. -/
theorem format_rows_no_fallback {ε : Type} (prn : Printer) (buf : List Item)
    (rows : Rows ε) :
    (format_rows prn buf rows).exc = none ∨
    (∃ e, (format_rows prn buf rows).exc = some (.error e)) := by
  unfold format_rows
  dsimp only
  have hre := reopenBlock_fields prn
  obtain ⟨p1, h1, hf1, hi1, hcfg1⟩ := frFor_block buf prn.reopenBlock 0 hre.1
  have hpair : frFor prn.reopenBlock 0 buf =
      (.ok p1, (frFor prn.reopenBlock 0 buf).2) := by
    rw [← h1]
  rw [hpair]
  dsimp only
  rcases frWhile_block rows p1 (frFor prn.reopenBlock 0 buf).2 hf1 with
    ⟨e, he⟩ | ⟨g1, g2, g3, g4⟩
  · rw [he]
    exact Or.inr ⟨e, rfl⟩
  · rw [g1]
    dsimp only
    obtain ⟨p2, h2, _, _, _⟩ := closeBlock_block "\x7d" true g2
    rw [h2]
    exact Or.inl rfl

/-- The loop of `format_rows_str` never signals fallback when started
in block mode. -/
theorem frsLoop_block (items : List Item) (closeL : String) (p : Printer)
    (h : p.flow = false) : ∃ p', frsLoop items closeL p = .ok p' := by
  induction items generalizing p with
  | nil =>
    obtain ⟨p', h1, _, _, _⟩ := closeBlock_block closeL true h
    exact ⟨p', h1⟩
  | cons v vs ih =>
    rw [frsLoop]
    obtain ⟨p1, h1, hf1, _, _⟩ := format_block v p h
    rw [h1]
    dsimp only
    exact ih p1.comma (by rw [(comma_fields p1).1]; exact hf1)

/-- `json_to_string` always produces a string: the flow attempt either
succeeds, or the block-mode retry succeeds (the retry cannot signal
fallback, so the `unwrap_exc` panic is unreachable). -/
theorem json_to_string_ok (items : List Item) (config : Config) :
    ∃ s, json_to_string items config = some (.ok s) := by
  unfold json_to_string
  dsimp only
  cases h1 : format_rows_str (jsonPrinter config) items "[" "]" false with
  | ok p => exact ⟨p.endRender.output, rfl⟩
  | fallback p =>
    dsimp only
    have h2 : format_rows_str p items "[" "]" true =
        frsLoop items "]" p.reopenBlock := by
      unfold format_rows_str
      rw [if_pos rfl]
    obtain ⟨p2, h3⟩ := frsLoop_block items "]" p.reopenBlock (reopenBlock_fields p).1
    rw [h2, h3]
    exact ⟨p2.endRender.output, rfl⟩

/-- `json_item_to_string` always produces a string: a single item
rendered on a printer that is not in flow mode never signals fallback
(each composite opens its own flow attempt and absorbs it), so the
`unreachable!` arm cannot be reached. -/
theorem json_item_to_string_ok (item : Item) (config : Config) :
    ∃ p', item.format (jsonPrinter config) = .ok p' ∧
      json_item_to_string item config = some (.ok p'.endRender.output) := by
  obtain ⟨p', h1, _, _, _⟩ := format_block item (jsonPrinter config) rfl
  refine ⟨p', h1, ?_⟩
  unfold json_item_to_string
  dsimp only
  rw [h1]

/-! ## Claim theorems C2, C5, C7, C8, C9 -/

/-- C2: for every input and configuration the `DisableFlow`
(`FallbackToBlock`) signal is fully absorbed inside the two-phase
driver: `_native_format` (hence `native_to_stdout`) never panics on an
escaped signal (result `none`) and returns only stream-read errors
(`streamErr`; the modelled in-memory sink cannot fail), and
`json_to_string` likewise always returns a built string. -/
theorem fallback_absorbed_by_driver {ε : Type} (rows : Rows ε) (config : Config)
    (maxWidth : Nat) (colors : Bool) (items : List Item) (jconfig : Config) :
    ((∃ s, _native_format rows config maxWidth colors = some (.ok s)) ∨
     (∃ e, _native_format rows config maxWidth colors =
        some (.error (.streamErr e)))) ∧
    (∃ s, json_to_string items jconfig = some (.ok s)) := by
  refine ⟨?_, json_to_string_ok items jconfig⟩
  unfold _native_format
  dsimp only
  rcases hfb : format_rows_buf (nativePrinter config maxWidth colors) rows with ⟨r, eos⟩
  dsimp only
  cases hexc : r.exc with
  | none => exact Or.inl ⟨_, rfl⟩
  | some exc =>
    cases exc with
    | error e => exact Or.inr ⟨e, rfl⟩
    | disableFlow =>
      cases eos with
      | true => exact Or.inl ⟨_, rfl⟩
      | false =>
        dsimp only
        rcases format_rows_no_fallback r.prn r.rowBuf r.rows with hnone | ⟨e, he⟩
        · rw [hnone]
          exact Or.inl ⟨_, rfl⟩
        · rw [he]
          exact Or.inr ⟨e, rfl⟩

/-- C5: for every single item rendered via `json_item_to_string` the
fallback signal never occurs: the render capability applied to the
freshly-constructed (non-flow) JSON printer always succeeds, so the
`DisableFlow` arm (`unreachable!`) can never fire and the function
returns the built string. -/
theorem json_item_fallback_unreachable (item : Item) (config : Config) :
    ∃ p', item.format (jsonPrinter config) = PRes.ok p' ∧
      json_item_to_string item config = some (.ok p'.endRender.output) :=
  json_item_to_string_ok item config

/-- C7: the effective maximum line width of a render call is the
configured `max_width` when set, otherwise the terminal-derived width,
otherwise 80; and the JSON string path uses 80 when `max_width` is
unset. -/
theorem effective_max_width_resolution {ε : Type} (rows : Rows ε) (config : Config)
    (terminalWidth : Option Nat) (isTerm : Bool) :
    (native_to_stdout rows config terminalWidth isTerm =
      _native_format rows config (config.maxWidth.getD (terminalWidth.getD 80))
        (config.colors.getD isTerm)) ∧
    (∀ w, config.maxWidth = some w →
      native_to_stdout rows config terminalWidth isTerm =
        _native_format rows config w (config.colors.getD isTerm)) ∧
    (∀ t, config.maxWidth = none → terminalWidth = some t →
      native_to_stdout rows config terminalWidth isTerm =
        _native_format rows config t (config.colors.getD isTerm)) ∧
    (config.maxWidth = none → terminalWidth = none →
      native_to_stdout rows config terminalWidth isTerm =
        _native_format rows config 80 (config.colors.getD isTerm)) ∧
    (jsonPrinter config).maxWidth = config.maxWidth.getD 80 ∧
    (config.maxWidth = none → (jsonPrinter config).maxWidth = 80) := by
  refine ⟨rfl, ?_, ?_, ?_, rfl, ?_⟩
  · intro w hw
    unfold native_to_stdout
    rw [hw]
    rfl
  · intro t hw ht
    unfold native_to_stdout
    rw [hw, ht]
    rfl
  · intro hw ht
    unfold native_to_stdout
    rw [hw, ht]
    rfl
  · intro hw
    simp [jsonPrinter, hw]

/-- Witness for C7 at concrete inputs: all three resolution scenarios
are exercised. -/
theorem effective_max_width_resolution_witness :
    ({ Config.new with maxWidth := some 17 } : Config).maxWidth = some 17 ∧
    (Config.new.maxWidth = none ∧
      (some 33 : Option Nat) = some 33 ∧ (none : Option Nat) = none) ∧
    (native_to_stdout (ε := Unit) [] { Config.new with maxWidth := some 17 }
        (some 33) false =
      _native_format [] { Config.new with maxWidth := some 17 } 17 false) ∧
    (native_to_stdout (ε := Unit) [] Config.new (some 33) false =
      _native_format [] Config.new 33 false) ∧
    (native_to_stdout (ε := Unit) [] Config.new none false =
      _native_format [] Config.new 80 false) ∧
    (jsonPrinter Config.new).maxWidth = 80 := by
  refine ⟨rfl, ⟨rfl, rfl, rfl⟩, ?_, ?_, ?_, ?_⟩
  · exact ((effective_max_width_resolution (ε := Unit) []
      { Config.new with maxWidth := some 17 } (some 33) false).2.1) 17 rfl
  · exact ((effective_max_width_resolution (ε := Unit) []
      Config.new (some 33) false).2.2.1) 33 rfl rfl
  · exact ((effective_max_width_resolution (ε := Unit) []
      Config.new none false).2.2.2.1) rfl rfl
  · exact ((effective_max_width_resolution (ε := Unit) []
      Config.new none false).2.2.2.2.2) rfl

/-- C8: rendering is deterministic — rendering equal item sequences
under equal configurations (and equal explicitly-passed ambient
parameters, which are resolved once before rendering) yields
byte-identical output, for both the native and the JSON path. -/
theorem rendering_deterministic {ε : Type} (rows₁ rows₂ : Rows ε)
    (config₁ config₂ : Config) (w₁ w₂ : Nat) (c₁ c₂ : Bool)
    (items₁ items₂ : List Item)
    (hr : rows₁ = rows₂) (hc : config₁ = config₂) (hw : w₁ = w₂)
    (hcol : c₁ = c₂) (hi : items₁ = items₂) :
    _native_format rows₁ config₁ w₁ c₁ = _native_format rows₂ config₂ w₂ c₂ ∧
    json_to_string items₁ config₁ = json_to_string items₂ config₂ ∧
    json_to_string items₁ config₁ = json_to_string items₁ config₁ := by
  subst hr hc hw hcol hi
  exact ⟨rfl, rfl, rfl⟩

/-- Witness for C8 at a concrete input. -/
theorem rendering_deterministic_witness :
    _native_format (ε := Unit) [.ok (.scalar "a")] Config.new 10 false =
      _native_format (ε := Unit) [.ok (.scalar "a")] Config.new 10 false ∧
    json_to_string [.scalar "a"] Config.new =
      json_to_string [.scalar "a"] Config.new ∧
    json_to_string [.scalar "a"] Config.new =
      json_to_string [.scalar "a"] Config.new :=
  rendering_deterministic [.ok (.scalar "a")] [.ok (.scalar "a")]
    Config.new Config.new 10 10 false false [.scalar "a"] [.scalar "a"]
    rfl rfl rfl rfl rfl

/-- C9: `json_to_string` and `json_item_to_string` can never fail — for
every item slice (or single item) and configuration they return the
built string (their Rust error type is `Infallible`, and the in-memory
sink has no write-failure path; the `unwrap_exc` panics are also
unreachable). -/
theorem json_rendering_infallible (items : List Item) (item : Item)
    (config : Config) :
    (∃ s, json_to_string items config = some (.ok s)) ∧
    (∃ s, json_item_to_string item config = some (.ok s)) := by
  refine ⟨json_to_string_ok items config, ?_⟩
  obtain ⟨p', _, h2⟩ := json_item_to_string_ok item config
  exact ⟨p'.endRender.output, h2⟩

/-! ## Phase 1: the pulled prefix and the rolled-back state -/

theorem FlowOut_ok_trans {p p1 p2 : Printer}
    (h1 : FlowOut p (.ok p1)) (h2 : FlowOut p1 (.ok p2)) :
    FlowOut p (.ok p2) := by
  obtain ⟨a1, a2, a3, a4, a5, a6⟩ := h1
  obtain ⟨b1, b2, b3, b4, b5, b6⟩ := h2
  refine ⟨b1, b2.trans a2, a3.trans b3, SameCfg.cfgTrans a4 b4, ?_, ?_⟩
  · rw [a3.1] at b5
    rw [b5, a5]
  · rw [a3.1] at b6
    exact b6

theorem FlowOut_fallback_trans {p p1 q : Printer}
    (h1 : FlowOut p (.ok p1)) (h2 : FlowOut p1 (.fallback q)) :
    FlowOut p (.fallback q) := by
  obtain ⟨a1, a2, a3, a4, a5, a6⟩ := h1
  obtain ⟨b1, b2, b3, b4, b5, b6⟩ := h2
  refine ⟨b1, by rw [b2, a3.2.1], a3.trans b3, SameCfg.cfgTrans a4 b4, ?_,
    by rw [b6, a3.2.2]⟩
  rw [b5, a3.1, a5]

theorem FlowOut_ok_comma {p p1 : Printer} (h : FlowOut p (.ok p1)) :
    FlowOut p (.ok p1.comma) := by
  obtain ⟨a1, a2, a3, a4, a5, a6⟩ := h
  have hcom := comma_fields p1
  exact ⟨hcom.1.trans a1, hcom.2.1.trans a2, a3.trans hcom.2.2.1,
    SameCfg.cfgTrans a4 hcom.2.2.2.1, by rw [hcom.2.2.2.2.1]; exact a5,
    by rw [hcom.2.2.2.2.1]; exact a6⟩

/-- When the Phase 1 pull-render loop is aborted by the fallback
signal, its row buffer extends by exactly the successfully pulled
prefix of the stream, in pull order, and its stream field is exactly
the not-yet-pulled suffix. -/
theorem frbLoop_fallback_prefix {ε : Type} (rows : Rows ε) (p : Printer)
    (buf : List Item) (h : (frbLoop p rows buf).exc = some .disableFlow) :
    ∃ vs : List Item, rows.take vs.length = vs.map Except.ok ∧
      (frbLoop p rows buf).rowBuf = buf ++ vs ∧
      (frbLoop p rows buf).rows = List.drop vs.length rows := by
  induction rows generalizing p buf with
  | nil =>
    rw [frbLoop] at h
    simp at h
  | cons row rest ih =>
    cases row with
    | error e =>
      rw [frbLoop] at h
      simp at h
    | ok v =>
      rw [frbLoop] at h ⊢
      dsimp only at h ⊢
      by_cases hover : ((match p.maxItems with
        | some limit => decide ((buf ++ [v]).length > limit)
        | none => false) : Bool) = true
      · rw [if_pos hover] at h ⊢
        cases hq : p.ellipsis with
        | fallback q =>
          exact ⟨[v], by simp, by simp, by simp⟩
        | ok p1 =>
          rw [hq] at h
          dsimp only at h
          rcases hdr : drainRows rest with ⟨rem, err⟩
          rw [hdr] at h
          cases err <;> simp at h
      · rw [if_neg hover] at h ⊢
        cases hq : v.format p with
        | fallback q =>
          exact ⟨[v], by simp, by simp, by simp⟩
        | ok p1 =>
          rw [hq] at h
          dsimp only at h ⊢
          obtain ⟨vs, h1, h2, h3⟩ := ih p1.comma (buf ++ [v]) h
          refine ⟨v :: vs, ?_, ?_, ?_⟩
          · simp only [List.length_cons, List.take_succ_cons, List.map_cons]
            rw [h1]
          · rw [h2]
            simp
          · simp only [List.length_cons, List.drop_succ_cons]
            exact h3

/-- When the Phase 1 pull-render loop is aborted by the fallback
signal, the printer it returns is the flow-rollback of the printer it
started from: flow still marked, cursor back at the commit point,
buffer truncated to the committed prefix. -/
theorem frbLoop_flow_fallback {ε : Type} (rows : Rows ε) (p : Printer)
    (buf : List Item) (hf : p.flow = true)
    (hle : p.committedIndent ≤ p.curIndent)
    (hc : p.committed ≤ p.buffer.length)
    (h : (frbLoop p rows buf).exc = some .disableFlow) :
    FlowOut p (.fallback (frbLoop p rows buf).prn) := by
  induction rows generalizing p buf with
  | nil =>
    rw [frbLoop] at h
    simp at h
  | cons row rest ih =>
    cases row with
    | error e =>
      rw [frbLoop] at h
      simp at h
    | ok v =>
      rw [frbLoop] at h ⊢
      dsimp only at h ⊢
      by_cases hover : ((match p.maxItems with
        | some limit => decide ((buf ++ [v]).length > limit)
        | none => false) : Bool) = true
      · rw [if_pos hover] at h ⊢
        cases hq : p.ellipsis with
        | fallback q =>
          dsimp only
          have hw := write_flow "..." hf hc
          rw [Printer.ellipsis] at hq
          rw [hq] at hw
          exact hw
        | ok p1 =>
          rw [hq] at h
          dsimp only at h
          rcases hdr : drainRows rest with ⟨rem, err⟩
          rw [hdr] at h
          cases err <;> simp at h
      · rw [if_neg hover] at h ⊢
        cases hq : v.format p with
        | fallback q =>
          dsimp only
          have hw := format_flow v p hf hle hc
          rw [hq] at hw
          exact hw
        | ok p1 =>
          rw [hq] at h
          dsimp only at h ⊢
          have hok : FlowOut p (.ok p1.comma) := by
            refine FlowOut_ok_comma ?_
            have hw := format_flow v p hf hle hc
            rw [hq] at hw
            exact hw
          obtain ⟨a1, a2, a3, a4, a5, a6⟩ := hok
          have hrec := ih p1.comma (buf ++ [v]) a1
            (by rw [a3.2.1, a2]; exact hle)
            (by rw [a3.1]; exact a6) h
          exact FlowOut_fallback_trans ⟨a1, a2, a3, a4, a5, a6⟩ hrec

/-! ## Claim theorems C10 and C1 -/

/-- Helper: whenever Phase 1 is aborted by the fallback signal before
the end-of-stream flag is set, the row buffer holds exactly the pulled
prefix, in pull order, and the stream field the un-pulled suffix. -/
theorem frb_pulled_prefix_aux {ε : Type} (rows : Rows ε) (p : Printer)
    (h : ((format_rows_buf p rows).1).exc = some .disableFlow)
    (heos : (format_rows_buf p rows).2 = false) :
    ∃ vs : List Item,
      rows.take vs.length = vs.map Except.ok ∧
      (format_rows_buf p rows).1.rowBuf = vs ∧
      (format_rows_buf p rows).1.rows = List.drop vs.length rows := by
  unfold format_rows_buf at h heos ⊢
  cases hob : p.openBlock "\x7b" with
  | fallback q =>
    exact ⟨[], by simp, rfl, rfl⟩
  | ok b p1 =>
    dsimp only at h heos ⊢
    cases hexc : (frbLoop p1 rows []).exc with
    | some e =>
      cases e with
      | disableFlow =>
        obtain ⟨vs, h1, h2, h3⟩ := frbLoop_fallback_prefix rows p1 [] hexc
        refine ⟨vs, h1, ?_, ?_⟩
        · show (frbLoop p1 rows []).rowBuf = vs
          rw [h2]
          simp
        · show (frbLoop p1 rows []).rows = List.drop vs.length rows
          exact h3
      | error e =>
        rw [hob] at h
        dsimp only at h
        rw [hexc] at h
        simp at h
    | none =>
      rw [hob] at h heos
      dsimp only at h heos
      rw [hexc] at h heos
      dsimp only at h heos
      cases hcb : (frbLoop p1 rows []).prn.closeBlock "\x7d" true with
      | fallback q =>
        rw [hcb] at heos
        simp at heos
      | ok p2 =>
        rw [hcb] at h
        simp at h

/-- C10: whenever Phase 1 (`format_rows_buf`) is aborted by the
fallback signal before the end-of-stream flag is set (the only moments
at which the Phase 1 to Phase 2 transition happens), the row buffer
holds exactly the sequence of items pulled from the source so far, in
pull order, and the stream field is exactly the not-yet-pulled suffix:
no pulled item is lost across the transition.  (Every pulled item is
pushed before its render is attempted, per the definition of the
loop.) -/
theorem row_buffer_holds_pulled_prefix {ε : Type} (rows : Rows ε) (p : Printer)
    (h : ((format_rows_buf p rows).1).exc = some .disableFlow)
    (heos : (format_rows_buf p rows).2 = false) :
    ∃ vs : List Item,
      rows.take vs.length = vs.map Except.ok ∧
      (format_rows_buf p rows).1.rowBuf = vs ∧
      (format_rows_buf p rows).1.rows = List.drop vs.length rows :=
  frb_pulled_prefix_aux rows p h heos

/-- Helper: when the fallback signal aborts Phase 1 while the
end-of-stream flag is still unset, the driver runs Phase 2 on exactly
the pulled prefix and the un-pulled suffix. -/
theorem native_fallback_phase2_aux {ε : Type} (rows : Rows ε)
    (config : Config) (w : Nat) (colors : Bool)
    (h : ((format_rows_buf (nativePrinter config w colors) rows).1).exc =
      some .disableFlow)
    (heos : (format_rows_buf (nativePrinter config w colors) rows).2 = false) :
    (∃ vs : List Item,
      rows.take vs.length = vs.map Except.ok ∧
      (format_rows_buf (nativePrinter config w colors) rows).1.rowBuf = vs ∧
      (format_rows_buf (nativePrinter config w colors) rows).1.rows =
        List.drop vs.length rows) ∧
    _native_format rows config w colors =
      (match (format_rows
          (format_rows_buf (nativePrinter config w colors) rows).1.prn
          (format_rows_buf (nativePrinter config w colors) rows).1.rowBuf
          (format_rows_buf (nativePrinter config w colors) rows).1.rows).exc with
       | some .disableFlow => none
       | some (.error e) => some (.error (.streamErr e))
       | none => some (.ok (format_rows
          (format_rows_buf (nativePrinter config w colors) rows).1.prn
          (format_rows_buf (nativePrinter config w colors) rows).1.rowBuf
          (format_rows_buf (nativePrinter config w colors) rows).1.rows).prn.endRender.output)) := by
  refine ⟨frb_pulled_prefix_aux rows _ h heos, ?_⟩
  unfold _native_format
  dsimp only
  rw [h, heos]
  rfl

/-- C1 (amended): when the fallback signal aborts Phase 1 while the
end-of-stream flag is still unset, `_native_format` abandons flow
rendering and runs Phase 2 (`format_rows`) on exactly the materialized
row buffer — which is exactly the pulled prefix of the stream in pull
order — and the not-yet-pulled suffix, never re-reading buffered items
from the source. -/
theorem fallback_transitions_to_phase2 {ε : Type} (rows : Rows ε)
    (config : Config) (w : Nat) (colors : Bool)
    (h : ((format_rows_buf (nativePrinter config w colors) rows).1).exc =
      some .disableFlow)
    (heos : (format_rows_buf (nativePrinter config w colors) rows).2 = false) :
    (∃ vs : List Item,
      rows.take vs.length = vs.map Except.ok ∧
      (format_rows_buf (nativePrinter config w colors) rows).1.rowBuf = vs ∧
      (format_rows_buf (nativePrinter config w colors) rows).1.rows =
        List.drop vs.length rows) ∧
    _native_format rows config w colors =
      (match (format_rows
          (format_rows_buf (nativePrinter config w colors) rows).1.prn
          (format_rows_buf (nativePrinter config w colors) rows).1.rowBuf
          (format_rows_buf (nativePrinter config w colors) rows).1.rows).exc with
       | some .disableFlow => none
       | some (.error e) => some (.error (.streamErr e))
       | none => some (.ok (format_rows
          (format_rows_buf (nativePrinter config w colors) rows).1.prn
          (format_rows_buf (nativePrinter config w colors) rows).1.rowBuf
          (format_rows_buf (nativePrinter config w colors) rows).1.rows).prn.endRender.output)) :=
  native_fallback_phase2_aux rows config w colors h heos

/-- Witness for C1 (amended) and C10 at a concrete input: width 3,
a single scalar item `"aaaa"` whose flow rendering overflows, so the
fallback is raised mid-item with the end-of-stream flag unset; the
driver then produces the Phase 2 block rendering. -/
theorem fallback_transitions_to_phase2_witness :
    (((format_rows_buf (nativePrinter Config.new 3 false)
        ([.ok (.scalar "aaaa")] : Rows Unit)).1).exc = some .disableFlow ∧
     (format_rows_buf (nativePrinter Config.new 3 false)
        ([.ok (.scalar "aaaa")] : Rows Unit)).2 = false) ∧
    (∃ vs : List Item,
      ([.ok (.scalar "aaaa")] : Rows Unit).take vs.length = vs.map Except.ok ∧
      (format_rows_buf (nativePrinter Config.new 3 false)
        ([.ok (.scalar "aaaa")] : Rows Unit)).1.rowBuf = vs ∧
      (format_rows_buf (nativePrinter Config.new 3 false)
        ([.ok (.scalar "aaaa")] : Rows Unit)).1.rows =
        List.drop vs.length ([.ok (.scalar "aaaa")] : Rows Unit)) := by
  refine ⟨⟨by decide, by decide⟩, ?_⟩
  exact (fallback_transitions_to_phase2 ([.ok (.scalar "aaaa")] : Rows Unit)
    Config.new 3 false (by decide) (by decide)).1

/-- Witness for C10 at the same concrete input. -/
theorem row_buffer_holds_pulled_prefix_witness :
    ∃ vs : List Item,
      ([.ok (.scalar "aaaa")] : Rows Unit).take vs.length = vs.map Except.ok ∧
      (format_rows_buf (nativePrinter Config.new 3 false)
        ([.ok (.scalar "aaaa")] : Rows Unit)).1.rowBuf = vs ∧
      (format_rows_buf (nativePrinter Config.new 3 false)
        ([.ok (.scalar "aaaa")] : Rows Unit)).1.rows =
        List.drop vs.length ([.ok (.scalar "aaaa")] : Rows Unit) :=
  row_buffer_holds_pulled_prefix ([.ok (.scalar "aaaa")] : Rows Unit)
    (nativePrinter Config.new 3 false) (by decide) (by decide)

/-- Counterexample to C1 as stated: when the fallback signal is raised
during Phase 1 at the close of the outer block after the stream was
already exhausted (`end_of_stream = true`), the driver does not
transition to Phase 2: with width 5 and the single item `"aaa"`, the
signal is raised during Phase 1, yet the output is the committed
prefix `"\x7b"` and not the Phase 2 block re-rendering of the row
buffer. -/
theorem fallback_without_phase2_counterexample :
    (((format_rows_buf (nativePrinter Config.new 5 false)
        ([.ok (.scalar "aaa")] : Rows Unit)).1).exc = some .disableFlow) ∧
    _native_format ([.ok (.scalar "aaa")] : Rows Unit) Config.new 5 false =
      some (.ok "\x7b".data) ∧
    (format_rows
      (format_rows_buf (nativePrinter Config.new 5 false)
        ([.ok (.scalar "aaa")] : Rows Unit)).1.prn
      (format_rows_buf (nativePrinter Config.new 5 false)
        ([.ok (.scalar "aaa")] : Rows Unit)).1.rowBuf
      (format_rows_buf (nativePrinter Config.new 5 false)
        ([.ok (.scalar "aaa")] : Rows Unit)).1.rows).exc = none ∧
    (format_rows
      (format_rows_buf (nativePrinter Config.new 5 false)
        ([.ok (.scalar "aaa")] : Rows Unit)).1.prn
      (format_rows_buf (nativePrinter Config.new 5 false)
        ([.ok (.scalar "aaa")] : Rows Unit)).1.rowBuf
      (format_rows_buf (nativePrinter Config.new 5 false)
        ([.ok (.scalar "aaa")] : Rows Unit)).1.rows).prn.endRender.output =
      "\x7b\n  aaa,\n\x7d".data ∧
    "\x7b".data ≠ "\x7b\n  aaa,\n\x7d".data := by
  refine ⟨by decide, by decide, by decide, by decide, by decide⟩

/-! ## Claim theorem C6 -/

/-- C6: no stray leading or trailing separator.  Closing a block flushes
the pending separator according to `trailing_comma` and block-emptiness:
with `trailing_comma = false` (the JSON path) a non-empty block
(`delim = comma`) closes with no separator before the closing token,
in flow mode and in block mode; with `trailing_comma = true` (the
native path) a non-empty block always closes with the separator after
its final element; an empty block (`delim = none`) never receives a
separator.  Concretely, end to end: `[1, 2, 3]` and `[]` on the JSON
path (also multi-line without a trailing separator), `{1, 2, 3,}` and
`{}` on the native path. -/
theorem emit_ok_elim {p p' : Printer} {s : String}
    (h : p.emit s = .ok p') : p' = p.emitRaw s := by
  unfold Printer.emit at h
  split at h
  · exact absurd h (by simp)
  · simp only [PRes.ok.injEq] at h
    exact h.symm

/-- The buffer produced by a successful flow-mode `close_block`: the
pending separator is flushed according to `trailing_comma` when the
block is non-empty, and nothing but the closing token is appended when
it is empty. -/
theorem closeBlock_flow_ok_buffer {p p' : Printer} (label : String)
    (hf : p.flow = true) (h : p.closeBlock label true = .ok p') :
    (p.delim = Delim.comma →
      p'.buffer = p.buffer ++
        (((if p.trailingComma then "," else "") : String) ++ label).data) ∧
    (p.delim = Delim.none → p'.buffer = p.buffer ++ label.data) := by
  unfold Printer.closeBlock at h
  split at h
  next hd =>
    rw [if_pos hf] at h
    split at h
    next htc =>
      dsimp only at h
      split at h
      next q heq => exact absurd h (by simp)
      next p2 heq =>
        have hp2 := emit_ok_elim heq
        have hinj : p2.exitFlowIfRoot (p.curIndent - 1) = p' := by
          simpa using h
        refine ⟨fun _ => ?_, fun hn => absurd (hd.symm.trans hn) (by simp)⟩
        rw [← hinj, (exitFlowIfRoot_spec p2 (p.curIndent - 1)).1.2.2.1, hp2]
        have htc2 : p.trailingComma = true := by simpa using htc
        simp [Printer.emitRaw, htc2]
    next htc =>
      dsimp only at h
      split at h
      next q heq => exact absurd h (by simp)
      next p2 heq =>
        have hp2 := emit_ok_elim heq
        have hinj : p2.exitFlowIfRoot (p.curIndent - 1) = p' := by
          simpa using h
        refine ⟨fun _ => ?_, fun hn => absurd (hd.symm.trans hn) (by simp)⟩
        rw [← hinj, (exitFlowIfRoot_spec p2 (p.curIndent - 1)).1.2.2.1, hp2]
        have htc2 : p.trailingComma = false := by simpa using htc
        simp [Printer.emitRaw, htc2]
  next hd =>
    rw [if_pos hf] at h
    split at h
    next q heq => exact absurd h (by simp)
    next p2 heq =>
      have hp2 := emit_ok_elim heq
      have hinj : p2.exitFlowIfRoot (p.curIndent - 1) = p' := by
        simpa using h
      refine ⟨fun hc => absurd (hd.symm.trans hc) (by simp), fun _ => ?_⟩
      rw [← hinj, (exitFlowIfRoot_spec p2 (p.curIndent - 1)).1.2.2.1, hp2]
      simp [Printer.emitRaw]

theorem no_stray_separator (p : Printer) (label : String) :
    ((p.trailingComma = false → p.delim = Delim.comma → p.flow = false →
      ∃ p', p.closeBlock label true = .ok p' ∧
        p'.buffer = p.buffer ++ '\n' :: spaces ((p.curIndent - 1) * p.indent)
          ++ label.data) ∧
     (p.trailingComma = false → p.delim = Delim.comma → p.flow = true →
      ∀ p', p.closeBlock label true = .ok p' →
        p'.buffer = p.buffer ++ label.data) ∧
     (p.trailingComma = true → p.delim = Delim.comma → p.flow = false →
      ∃ p', p.closeBlock label true = .ok p' ∧
        p'.buffer = p.buffer ++ ',' :: '\n' ::
          spaces ((p.curIndent - 1) * p.indent) ++ label.data) ∧
     (p.trailingComma = true → p.delim = Delim.comma → p.flow = true →
      ∀ p', p.closeBlock label true = .ok p' →
        p'.buffer = p.buffer ++ ',' :: label.data) ∧
     (p.delim = Delim.none → p.flow = true →
      ∀ p', p.closeBlock label true = .ok p' →
        p'.buffer = p.buffer ++ label.data)) ∧
    (json_to_string [.scalar "1", .scalar "2", .scalar "3"] Config.new =
      some (.ok "[1, 2, 3]".data) ∧
     json_to_string ([] : List Item) Config.new = some (.ok "[]".data) ∧
     json_to_string [.scalar "aaaa", .scalar "bbbb"]
        { Config.new with maxWidth := some 6 } =
      some (.ok "[\n  aaaa,\n  bbbb\n]".data) ∧
     _native_format (ε := Unit)
        [.ok (.scalar "1"), .ok (.scalar "2"), .ok (.scalar "3")]
        Config.new 80 false = some (.ok "{1, 2, 3,}".data) ∧
     _native_format (ε := Unit) [] Config.new 80 false =
      some (.ok "{}".data)) := by
  constructor
  · refine ⟨?_, ?_, ?_, ?_, ?_⟩
    · intro htc hd hf
      rcases p with ⟨co, ind, es, mw, ip, mi, mv, tc, buf, out, dl, fl, cm, ci, cc, col, cu⟩
      simp only at htc hd hf
      subst htc
      subst hd
      subst hf
      exact ⟨_, rfl, by simp [Printer.closeBlock, Printer.newline, Printer.emitRaw]⟩
    · intro htc hd hf p' hp'
      have hb := (closeBlock_flow_ok_buffer label hf hp').1 hd
      rw [hb, htc]
      simp
    · intro htc hd hf
      rcases p with ⟨co, ind, es, mw, ip, mi, mv, tc, buf, out, dl, fl, cm, ci, cc, col, cu⟩
      simp only at htc hd hf
      subst htc
      subst hd
      subst hf
      exact ⟨_, rfl, by simp [Printer.closeBlock, Printer.newline, Printer.emitRaw]⟩
    · intro htc hd hf p' hp'
      have hb := (closeBlock_flow_ok_buffer label hf hp').1 hd
      rw [hb, htc]
      simp
    · intro hd hf p' hp'
      exact (closeBlock_flow_ok_buffer label hf hp').2 hd
  · refine ⟨by decide, by decide, by decide, by decide, by decide⟩

/-- Witness for C6 at concrete printers: a non-empty block closed on
the JSON path (no trailing separator) and on the native path (trailing
separator). -/
theorem no_stray_separator_witness :
    (({ jsonPrinter Config.new with delim := Delim.comma } : Printer).trailingComma
        = false ∧
     ({ nativePrinter Config.new 80 false with delim := Delim.comma } :
        Printer).trailingComma = true) ∧
    (∃ p', ({ jsonPrinter Config.new with delim := Delim.comma } : Printer).closeBlock
        "]" true = .ok p' ∧
      p'.buffer = ({ jsonPrinter Config.new with delim := Delim.comma } :
          Printer).buffer ++ '\n' ::
        spaces ((({ jsonPrinter Config.new with delim := Delim.comma } :
          Printer).curIndent - 1) *
          ({ jsonPrinter Config.new with delim := Delim.comma } : Printer).indent)
        ++ "]".data) ∧
    (∃ p', ({ nativePrinter Config.new 80 false with delim := Delim.comma } :
        Printer).closeBlock "\x7d" true = .ok p' ∧
      p'.buffer = ({ nativePrinter Config.new 80 false with delim := Delim.comma } :
          Printer).buffer ++ ',' :: '\n' ::
        spaces ((({ nativePrinter Config.new 80 false with delim := Delim.comma } :
          Printer).curIndent - 1) *
          ({ nativePrinter Config.new 80 false with delim := Delim.comma } :
            Printer).indent) ++ "\x7d".data) := by
  refine ⟨⟨rfl, rfl⟩, ?_, ?_⟩
  · exact (no_stray_separator
      { jsonPrinter Config.new with delim := Delim.comma } "]").1.1 rfl rfl rfl
  · exact (no_stray_separator
      { nativePrinter Config.new 80 false with delim := Delim.comma } "\x7d").1.2.2.1
      rfl rfl rfl

/-! ## Item-limit and replay machinery for C3 and C4 -/

/-- The in-order rendering pass shared by all driver loops: each item
rendered by its render capability, followed by the pending separator. -/
def renderSeq : List Item → Printer → PRes
  | [], p => .ok p
  | x :: xs, p =>
    match x.format p with
    | .fallback q => .fallback q
    | .ok p1 => renderSeq xs p1.comma

/-- Draining an error-free stream consumes it entirely. -/
theorem drainRows_map_ok {ε : Type} (vs : List Item) :
    drainRows (vs.map Except.ok : Rows ε) = ([], none) := by
  induction vs with
  | nil => rfl
  | cons v vs ih =>
    rw [List.map_cons, drainRows]
    exact ih

/-- The Phase 1 loop on an error-free stream never reports a stream
error. -/
theorem frbLoop_map_ok_no_error {ε : Type} (vs : List Item) (p : Printer)
    (buf : List Item) (e : ε) :
    (frbLoop p (vs.map Except.ok) buf).exc ≠ some (.error e) := by
  induction vs generalizing p buf with
  | nil =>
    rw [List.map_nil, frbLoop]
    simp
  | cons v vs ih =>
    rw [List.map_cons, frbLoop]
    dsimp only
    by_cases hover : ((match p.maxItems with
      | some limit => decide ((buf ++ [v]).length > limit)
      | none => false) : Bool) = true
    · rw [if_pos hover]
      cases hq : p.ellipsis with
      | fallback q => simp
      | ok p1 =>
        rw [drainRows_map_ok]
        simp
    · rw [if_neg hover]
      cases hq : v.format p with
      | fallback q => simp
      | ok p1 => exact ih p1.comma (buf ++ [v])

theorem SameCfg.mi {p q : Printer} (h : SameCfg p q) :
    q.maxItems = p.maxItems := h.2.2.2.2.2.1

theorem SameCfg.indEq {p q : Printer} (h : SameCfg p q) :
    q.indent = p.indent := h.2.1

theorem SameCfg.mwEq {p q : Printer} (h : SameCfg p q) :
    q.maxWidth = p.maxWidth := h.2.2.2.1

theorem SameCfg.tcEq {p q : Printer} (h : SameCfg p q) :
    q.trailingComma = p.trailingComma := h.2.2.2.2.2.2.2.1

theorem SameCfg.outEq {p q : Printer} (h : SameCfg p q) :
    q.output = p.output := h.2.2.2.2.2.2.2.2

theorem rollback_samecfg (p : Printer) : SameCfg p p.rollback := by
  simp [SameCfg, Printer.rollback]

theorem SameCfg.set_delim (p : Printer) (d : Delim) :
    SameCfg p { p with delim := d } := by
  simp [SameCfg]

/-- Any outcome of a width-checked emission preserves the
configuration fields. -/
theorem emit_samecfg {p : Printer} (s : String) :
    (∀ p', p.emit s = .ok p' → SameCfg p p') ∧
    (∀ q, p.emit s = .fallback q → SameCfg p q) := by
  unfold Printer.emit
  split
  · refine ⟨fun p' h => absurd h (by simp), fun q h => ?_⟩
    simp only [PRes.fallback.injEq] at h
    rw [← h]
    exact rollback_samecfg p
  · refine ⟨fun p' h => ?_, fun q h => absurd h (by simp)⟩
    simp only [PRes.ok.injEq] at h
    rw [← h]
    exact (emitRaw_fields p s).2.2.2.1

/-- Any outcome of a separator flush preserves the configuration
fields. -/
theorem flushDelim_samecfg {p : Printer} :
    (∀ p', p.flushDelim = .ok p' → SameCfg p p') ∧
    (∀ q, p.flushDelim = .fallback q → SameCfg p q) := by
  unfold Printer.flushDelim
  split
  · exact ⟨fun p' h => by simp only [PRes.ok.injEq] at h; rw [← h]; exact SameCfg.cfgRefl p,
      fun q h => absurd h (by simp)⟩
  · split
    · constructor
      · intro p' h
        exact SameCfg.cfgTrans (SameCfg.set_delim p Delim.none)
          ((emit_samecfg ", ").1 p' h)
      · intro q h
        exact SameCfg.cfgTrans (SameCfg.set_delim p Delim.none)
          ((emit_samecfg ", ").2 q h)
    · refine ⟨fun p' h => ?_, fun q h => absurd h (by simp)⟩
      simp only [PRes.ok.injEq] at h
      rw [← h]
      refine SameCfg.cfgTrans (SameCfg.set_delim p Delim.none) ?_
      refine SameCfg.cfgTrans (emitRaw_fields _ ",").2.2.2.1 ?_
      exact (newline_fields _).2.2.2.1

/-- Any outcome of a content emission preserves the configuration
fields. -/
theorem write_samecfg {p : Printer} (s : String) :
    (∀ p', p.write s = .ok p' → SameCfg p p') ∧
    (∀ q, p.write s = .fallback q → SameCfg p q) := by
  unfold Printer.write PRes.andThen
  cases hq : p.flushDelim with
  | fallback q0 =>
    refine ⟨fun p' h => absurd h (by simp), fun q h => ?_⟩
    simp only [PRes.fallback.injEq] at h
    rw [← h]
    exact flushDelim_samecfg.2 q0 hq
  | ok p1 =>
    constructor
    · intro p' h
      exact SameCfg.cfgTrans (flushDelim_samecfg.1 p1 hq) ((emit_samecfg s).1 p' h)
    · intro q h
      exact SameCfg.cfgTrans (flushDelim_samecfg.1 p1 hq) ((emit_samecfg s).2 q h)

/-- Any outcome of `open_block` preserves the configuration fields. -/
theorem openBlock_samecfg {p : Printer} (label : String) :
    (∀ b p', p.openBlock label = .ok b p' → SameCfg p p') ∧
    (∀ q, p.openBlock label = .fallback q → SameCfg p q) := by
  unfold Printer.openBlock
  cases hq : p.flushDelim with
  | fallback q0 =>
    refine ⟨fun b p' h => absurd h (by simp), fun q h => ?_⟩
    simp only [BRes.fallback.injEq] at h
    rw [← h]
    exact flushDelim_samecfg.2 q0 hq
  | ok p1 =>
    have hcfg1 := flushDelim_samecfg.1 p1 hq
    dsimp only
    split
    · split
      next q0 heq =>
        refine ⟨fun b p' h => absurd h (by simp), fun q h => ?_⟩
        simp only [BRes.fallback.injEq] at h
        rw [← h]
        exact SameCfg.cfgTrans hcfg1 ((emit_samecfg label).2 q0 heq)
      next p2 heq =>
        refine ⟨fun b p' h => ?_, fun q h => absurd h (by simp)⟩
        simp only [BRes.ok.injEq] at h
        rw [← h.2]
        refine SameCfg.cfgTrans hcfg1 ?_
        refine SameCfg.cfgTrans ((emit_samecfg label).1 p2 heq) ?_
        simp [SameCfg]
    · refine ⟨fun b p' h => ?_, fun q h => absurd h (by simp)⟩
      simp only [BRes.ok.injEq] at h
      rw [← h.2]
      refine SameCfg.cfgTrans hcfg1 ?_
      refine SameCfg.cfgTrans (emitRaw_fields _ label).2.2.2.1 ?_
      simp [SameCfg]

/-- Any outcome of `close_block` preserves the configuration fields. -/
theorem closeBlock_samecfg {p : Printer} (label : String) (ats : Bool) :
    (∀ p', p.closeBlock label ats = .ok p' → SameCfg p p') ∧
    (∀ q, p.closeBlock label ats = .fallback q → SameCfg p q) := by
  unfold Printer.closeBlock
  split
  · split
    · dsimp only
      split
      next q0 heq =>
        refine ⟨fun p' h => absurd h (by simp), fun q h => ?_⟩
        simp only [PRes.fallback.injEq] at h
        rw [← h]
        exact SameCfg.cfgTrans (SameCfg.set_delim p Delim.none)
          ((emit_samecfg _).2 q0 heq)
      next p2 heq =>
        refine ⟨fun p' h => ?_, fun q h => absurd h (by simp)⟩
        simp only [PRes.ok.injEq] at h
        rw [← h]
        refine SameCfg.cfgTrans (SameCfg.set_delim p Delim.none) ?_
        refine SameCfg.cfgTrans ((emit_samecfg _).1 p2 heq) ?_
        exact (exitFlowIfRoot_spec p2 _).1.2.1
    · refine ⟨fun p' h => ?_, fun q h => absurd h (by simp)⟩
      simp only [PRes.ok.injEq] at h
      rw [← h]
      by_cases htc : (p.trailingComma && ats) = true <;>
        simp [SameCfg, Printer.emitRaw, Printer.newline, htc]
  · split
    · split
      next q0 heq =>
        refine ⟨fun p' h => absurd h (by simp), fun q h => ?_⟩
        simp only [PRes.fallback.injEq] at h
        rw [← h]
        exact (emit_samecfg label).2 q0 heq
      next p2 heq =>
        refine ⟨fun p' h => ?_, fun q h => absurd h (by simp)⟩
        simp only [PRes.ok.injEq] at h
        rw [← h]
        exact SameCfg.cfgTrans ((emit_samecfg label).1 p2 heq)
          (exitFlowIfRoot_spec p2 _).1.2.1
    · refine ⟨fun p' h => ?_, fun q h => absurd h (by simp)⟩
      simp only [PRes.ok.injEq] at h
      rw [← h]
      simp [SameCfg, Printer.emitRaw, Printer.newline]

mutual

/-- The render capability preserves the configuration fields, in any
mode and on any outcome. -/
theorem format_samecfg (x : Item) (p : Printer) :
    (∀ p', x.format p = .ok p' → SameCfg p p') ∧
    (∀ q, x.format p = .fallback q → SameCfg p q) := by
  cases x with
  | scalar s => exact write_samecfg s
  | set xs =>
    rw [Item.format]
    cases hq : p.openBlock "\x7b" with
    | fallback q0 =>
      exact ⟨fun p' h => absurd h (by simp), fun q h => by
        simp only [PRes.fallback.injEq] at h
        rw [← h]
        exact (openBlock_samecfg "\x7b").2 q0 hq⟩
    | ok b p1 =>
      dsimp only
      have hcfg1 := (openBlock_samecfg "\x7b").1 b p1 hq
      cases hq2 : formatSetBody xs p1 with
      | ok p2 =>
        dsimp only
        exact ⟨fun p' h => by
          simp only [PRes.ok.injEq] at h
          rw [← h]
          exact SameCfg.cfgTrans hcfg1 ((body_samecfg xs p1).1 p2 hq2),
          fun q h => absurd h (by simp)⟩
      | fallback p2 =>
        have hcfg2 := SameCfg.cfgTrans hcfg1 ((body_samecfg xs p1).2 p2 hq2)
        dsimp only
        cases b with
        | false =>
          exact ⟨fun p' h => absurd h (by simp), fun q h => by
            simp only [Bool.false_eq_true, if_false, PRes.fallback.injEq] at h
            rw [← h]
            exact hcfg2⟩
        | true =>
          rw [if_pos rfl]
          have hcfg3 := SameCfg.cfgTrans hcfg2 (reopenBlock_fields p2).2.2.1
          constructor
          · intro p' h
            exact SameCfg.cfgTrans hcfg3 ((body_samecfg xs p2.reopenBlock).1 p' h)
          · intro q h
            exact SameCfg.cfgTrans hcfg3 ((body_samecfg xs p2.reopenBlock).2 q h)

/-- The block-body rendering preserves the configuration fields, in
any mode and on any outcome. -/
theorem body_samecfg (xs : List Item) (p : Printer) :
    (∀ p', formatSetBody xs p = .ok p' → SameCfg p p') ∧
    (∀ q, formatSetBody xs p = .fallback q → SameCfg p q) := by
  cases xs with
  | nil =>
    rw [formatSetBody]
    exact closeBlock_samecfg "\x7d" true
  | cons x xs =>
    rw [formatSetBody]
    cases hq : x.format p with
    | fallback q0 =>
      exact ⟨fun p' h => absurd h (by simp), fun q h => by
        simp only [PRes.fallback.injEq] at h
        rw [← h]
        exact (format_samecfg x p).2 q0 hq⟩
    | ok p1 =>
      have hcfg1 := SameCfg.cfgTrans ((format_samecfg x p).1 p1 hq)
        (comma_fields p1).2.2.2.1
      constructor
      · intro p' h
        exact SameCfg.cfgTrans hcfg1 ((body_samecfg xs p1.comma).1 p' h)
      · intro q h
        exact SameCfg.cfgTrans hcfg1 ((body_samecfg xs p1.comma).2 q h)

end

/-- The Phase 1 loop on an error-free stream, when it completes without
an exception while the item limit `N` is bound to be exceeded, renders
exactly the next `N - |buf|` items, emits one ellipsis, pushes the one
further pulled item, and drains the stream dry. -/
theorem frbLoop_success_limit {ε : Type} (vs : List Item) (p : Printer)
    (buf : List Item) (N : Nat) (hmi : p.maxItems = some N)
    (hbuf : buf.length ≤ N) (hlen : N - buf.length < vs.length)
    (h : (frbLoop p (vs.map Except.ok : Rows ε) buf).exc = none) :
    ∃ pMid pE, renderSeq (vs.take (N - buf.length)) p = .ok pMid ∧
      pMid.ellipsis = .ok pE ∧
      frbLoop p (vs.map Except.ok : Rows ε) buf =
        ⟨pE, [], buf ++ vs.take (N - buf.length + 1), none⟩ := by
  induction vs generalizing p buf with
  | nil => simp at hlen
  | cons v vs ih =>
    rw [List.map_cons, frbLoop] at h ⊢
    dsimp only at h ⊢
    by_cases hN : buf.length = N
    · have hover : ((match p.maxItems with
        | some limit => decide ((buf ++ [v]).length > limit)
        | none => false) : Bool) = true := by
        rw [hmi]
        simp [hN]
      rw [if_pos hover] at h ⊢
      cases hq : p.ellipsis with
      | fallback q =>
        rw [hq] at h
        simp at h
      | ok p1 =>
        rw [hN]
        simp only [Nat.sub_self, List.take_zero]
        refine ⟨p, p1, rfl, hq, ?_⟩
        rw [drainRows_map_ok]
        simp
    · have hlt : buf.length < N := lt_of_le_of_ne hbuf hN
      have hover : ((match p.maxItems with
        | some limit => decide ((buf ++ [v]).length > limit)
        | none => false) : Bool) = false := by
        rw [hmi]
        simp only [List.length_append, List.length_cons, List.length_nil,
          decide_eq_false_iff_not, not_lt, gt_iff_lt]
        omega
      rw [hover] at h ⊢
      simp only [Bool.false_eq_true, if_false] at h ⊢
      cases hq : v.format p with
      | fallback q =>
        rw [hq] at h
        simp at h
      | ok p1 =>
        rw [hq] at h
        dsimp only at h ⊢
        have hlen2 : N - buf.length < vs.length + 1 := by
          simpa using hlen
        have hmi1 : p1.comma.maxItems = some N := by
          rw [(comma_fields p1).2.2.2.1.mi, ((format_samecfg v p).1 p1 hq).mi, hmi]
        obtain ⟨pMid, pE, h1, h2, h3⟩ := ih p1.comma (buf ++ [v]) hmi1
          (by simp only [List.length_append, List.length_cons, List.length_nil]; omega)
          (by simp only [List.length_append, List.length_cons, List.length_nil]; omega) h
        have htake : (v :: vs).take (N - buf.length) =
            v :: vs.take (N - (buf.length + 1)) := by
          have hs : N - buf.length = (N - (buf.length + 1)) + 1 := by omega
          rw [hs, List.take_succ_cons]
        refine ⟨pMid, pE, ?_, h2, ?_⟩
        · rw [htake, renderSeq, hq]
          simpa using h1
        · rw [h3]
          have heq2 : N - (buf.length + 1) + 1 = N - buf.length := by omega
          simp only [List.length_append, List.length_cons, List.length_nil, heq2,
            List.take_succ_cons, List.append_assoc, List.singleton_append]

/-- The Phase 2 streaming loop on an error-free stream never reports a
stream error. -/
theorem frWhile_map_ok_no_error {ε : Type} (vs : List Item) (p : Printer)
    (c : Nat) (e : ε) :
    (frWhile p c (vs.map Except.ok)).exc ≠ some (.error e) := by
  induction vs generalizing p c with
  | nil =>
    rw [List.map_nil, frWhile]
    simp
  | cons v vs ih =>
    rw [List.map_cons, frWhile]
    dsimp only
    by_cases hover : ((match p.maxItems with
      | some limit => decide (c + 1 > limit)
      | none => false) : Bool) = true
    · rw [if_pos hover]
      cases hq : p.ellipsis with
      | fallback q => simp
      | ok p1 =>
        rw [drainRows_map_ok]
        simp
    · rw [if_neg hover]
      cases hq : v.format p with
      | fallback q => simp
      | ok p1 => exact ih p1.comma (c + 1)

/-- The Phase 2 streaming loop, started in block mode with counter
`c ≤ N` on an error-free stream holding more than `N - c` items,
renders exactly the next `N - c` items, emits one ellipsis, drains the
stream dry and finishes cleanly. -/
theorem frWhile_block_limit {ε : Type} (vs : List Item) (p : Printer)
    (c N : Nat) (hflow : p.flow = false) (hmi : p.maxItems = some N)
    (hc : c ≤ N) (hlen : N - c < vs.length) :
    ∃ pMid pE, renderSeq (vs.take (N - c)) p = .ok pMid ∧
      pMid.flow = false ∧ pMid.ellipsis = .ok pE ∧ pE.flow = false ∧
      SameCfg p pE ∧
      frWhile p c (vs.map Except.ok : Rows ε) = ⟨pE, [], [], none⟩ := by
  induction vs generalizing p c with
  | nil => simp at hlen
  | cons v vs ih =>
    rw [List.map_cons, frWhile]
    dsimp only
    by_cases hN : c = N
    · have hover : ((match p.maxItems with
        | some limit => decide (c + 1 > limit)
        | none => false) : Bool) = true := by
        rw [hmi]
        simp [hN]
      rw [if_pos hover]
      obtain ⟨p1, hq, hf1, _, hcfg1⟩ := ellipsis_block hflow
      rw [hq]
      dsimp only
      rw [drainRows_map_ok]
      rw [hN]
      simp only [Nat.sub_self, List.take_zero]
      exact ⟨p, p1, rfl, hflow, hq, hf1, hcfg1, rfl⟩
    · have hlt : c < N := lt_of_le_of_ne hc hN
      have hover : ((match p.maxItems with
        | some limit => decide (c + 1 > limit)
        | none => false) : Bool) = false := by
        rw [hmi]
        simp only [decide_eq_false_iff_not, not_lt, gt_iff_lt]
        omega
      rw [hover]
      simp only [Bool.false_eq_true, if_false]
      cases hq : v.format p with
      | fallback q =>
        obtain ⟨p1, hq2, _, _, _⟩ := format_block v p hflow
        rw [hq] at hq2
        exact absurd hq2 (by simp)
      | ok p1 =>
        dsimp only
        obtain ⟨p1', hq2, hf1, _, hcfg1⟩ := format_block v p hflow
        rw [hq] at hq2
        simp only [PRes.ok.injEq] at hq2
        subst hq2
        have hlen2 : N - c < vs.length + 1 := by simpa using hlen
        have hmi1 : p1.comma.maxItems = some N := by
          rw [(comma_fields p1).2.2.2.1.mi, hcfg1.mi, hmi]
        obtain ⟨pMid, pE, h1, h2, h3, h4, h5, h6⟩ := ih p1.comma (c + 1)
          (by rw [(comma_fields p1).1]; exact hf1) hmi1 (by omega) (by omega)
        have htake : (v :: vs).take (N - c) = v :: vs.take (N - (c + 1)) := by
          have hs : N - c = (N - (c + 1)) + 1 := by omega
          rw [hs, List.take_succ_cons]
        refine ⟨pMid, pE, ?_, h2, h3, h4, ?_, h6⟩
        · rw [htake, renderSeq, hq]
          exact h1
        · exact SameCfg.cfgTrans (SameCfg.cfgTrans hcfg1 (comma_fields p1).2.2.2.1) h5

/-- Replay equivalence: in block mode, replaying a buffered list under
the shared counter and then continuing with the live stream is the
same as streaming the concatenation, provided the buffered part does
not already exceed the item limit. -/
theorem frFor_frWhile_concat {ε : Type} (buf : List Item) (rest : Rows ε)
    (p : Printer) (c : Nat) (hflow : p.flow = false)
    (hlim : ∀ N, p.maxItems = some N → c + buf.length ≤ N) :
    ∃ p', frFor p c buf = (.ok p', c + buf.length) ∧ p'.flow = false ∧
      SameCfg p p' ∧
      frWhile p c (buf.map Except.ok ++ rest) = frWhile p' (c + buf.length) rest := by
  induction buf generalizing p c with
  | nil =>
    exact ⟨p, by rw [frFor]; simp, hflow, SameCfg.cfgRefl p, by simp⟩
  | cons v vs ih =>
    have hover : ((match p.maxItems with
      | some limit => decide (c + 1 > limit)
      | none => false) : Bool) = false := by
      cases hmi : p.maxItems with
      | none => rfl
      | some N =>
        have := hlim N hmi
        simp only [List.length_cons] at this
        simp only [decide_eq_false_iff_not, not_lt, gt_iff_lt]
        omega
    obtain ⟨p1, hq, hf1, _, hcfg1⟩ := format_block v p hflow
    have hstep : ∀ {ρ : Rows ε}, frWhile p c (Except.ok v :: ρ) =
        frWhile p1.comma (c + 1) ρ := by
      intro ρ
      rw [frWhile]
      dsimp only
      rw [hover]
      simp only [Bool.false_eq_true, if_false]
      rw [hq]
    have hlim1 : ∀ N, p1.comma.maxItems = some N → (c + 1) + vs.length ≤ N := by
      intro N hmi
      rw [(comma_fields p1).2.2.2.1.mi, hcfg1.mi] at hmi
      have := hlim N hmi
      simp only [List.length_cons] at this
      omega
    obtain ⟨p', h1, h2, h3, h4⟩ := ih p1.comma (c + 1)
      (by rw [(comma_fields p1).1]; exact hf1) hlim1
    refine ⟨p', ?_, h2, ?_, ?_⟩
    · rw [frFor]
      rw [hover]
      simp only [Bool.false_eq_true, if_false]
      rw [hq]
      dsimp only
      rw [h1]
      simp only [List.length_cons, Prod.mk.injEq]
      exact ⟨trivial, by omega⟩
    · exact SameCfg.cfgTrans (SameCfg.cfgTrans hcfg1 (comma_fields p1).2.2.2.1) h3
    · rw [List.map_cons, List.cons_append, hstep, h4]
      simp only [List.length_cons]
      have : c + 1 + vs.length = c + (vs.length + 1) := by omega
      rw [this]

/-- Phase 2 on (buffered prefix, live suffix) is the same single
in-order pass as Phase 2 on the concatenated stream, provided the
prefix does not already exceed the item limit. -/
theorem format_rows_concat {ε : Type} (prn : Printer) (buf : List Item)
    (rest : Rows ε)
    (hlim : ∀ N, prn.maxItems = some N → buf.length ≤ N) :
    format_rows prn buf rest = format_rows prn [] (buf.map Except.ok ++ rest) := by
  unfold format_rows
  dsimp only
  have hre := reopenBlock_fields prn
  obtain ⟨p', h1, _, _, h4⟩ := frFor_frWhile_concat buf rest prn.reopenBlock 0 hre.1
    (fun N hmi => by
      rw [hre.2.2.1.mi] at hmi
      simpa using hlim N hmi)
  rw [h1]
  dsimp only
  rw [frFor]
  dsimp only
  rw [h4]

/-- The Phase 1 loop preserves the configuration fields. -/
theorem frbLoop_samecfg {ε : Type} (rows : Rows ε) (p : Printer)
    (buf : List Item) : SameCfg p (frbLoop p rows buf).prn := by
  induction rows generalizing p buf with
  | nil =>
    rw [frbLoop]
    exact SameCfg.cfgRefl p
  | cons row rest ih =>
    cases row with
    | error e =>
      rw [frbLoop]
      exact SameCfg.cfgRefl p
    | ok v =>
      rw [frbLoop]
      dsimp only
      by_cases hover : ((match p.maxItems with
        | some limit => decide ((buf ++ [v]).length > limit)
        | none => false) : Bool) = true
      · rw [if_pos hover]
        cases hq : p.ellipsis with
        | fallback q => exact (write_samecfg "...").2 q hq
        | ok p1 =>
          dsimp only
          rcases hdr : drainRows rest with ⟨rem, err⟩
          cases err <;> exact (write_samecfg "...").1 p1 hq
      · rw [if_neg hover]
        cases hq : v.format p with
        | fallback q => exact (format_samecfg v p).2 q hq
        | ok p1 =>
          exact SameCfg.cfgTrans
            (SameCfg.cfgTrans ((format_samecfg v p).1 p1 hq) (comma_fields p1).2.2.2.1)
            (ih p1.comma (buf ++ [v]))

/-- Phase 1 as a whole preserves the configuration fields of the
printer it returns. -/
theorem format_rows_buf_samecfg {ε : Type} (p : Printer) (rows : Rows ε) :
    SameCfg p ((format_rows_buf p rows).1).prn := by
  unfold format_rows_buf
  cases hob : p.openBlock "\x7b" with
  | fallback q => exact (openBlock_samecfg "\x7b").2 q hob
  | ok b p1 =>
    dsimp only
    have hcfg1 := (openBlock_samecfg "\x7b").1 b p1 hob
    have hloop := frbLoop_samecfg rows p1 []
    cases hexc : (frbLoop p1 rows []).exc with
    | some e => exact SameCfg.cfgTrans hcfg1 hloop
    | none =>
      dsimp only
      cases hcb : (frbLoop p1 rows []).prn.closeBlock "\x7d" true with
      | fallback q =>
        exact SameCfg.cfgTrans (SameCfg.cfgTrans hcfg1 hloop)
          ((closeBlock_samecfg "\x7d" true).2 q hcb)
      | ok p2 =>
        exact SameCfg.cfgTrans (SameCfg.cfgTrans hcfg1 hloop)
          ((closeBlock_samecfg "\x7d" true).1 p2 hcb)

/-- Phase 1 on an error-free stream never reports a stream error. -/
theorem format_rows_buf_map_ok_no_error {ε : Type} (vs : List Item)
    (p : Printer) (e : ε) :
    ((format_rows_buf p (vs.map Except.ok)).1).exc ≠ some (.error e) := by
  unfold format_rows_buf
  cases hob : p.openBlock "\x7b" with
  | fallback q => simp
  | ok b p1 =>
    dsimp only
    cases hexc : (frbLoop p1 (vs.map Except.ok) []).exc with
    | some exc =>
      dsimp only
      intro hcontra
      exact frbLoop_map_ok_no_error vs p1 [] e (hexc.trans hcontra)
    | none =>
      dsimp only
      cases hcb : (frbLoop p1 (vs.map Except.ok) []).prn.closeBlock "\x7d" true with
      | fallback q => simp
      | ok p2 => simp

/-- A drain that reports no error consumed an error-free stream dry. -/
theorem drainRows_none_rows {ε : Type} (rows : Rows ε)
    (h : (drainRows rows).2 = none) :
    ∃ vs : List Item, rows = vs.map Except.ok ∧ (drainRows rows).1 = [] := by
  induction rows with
  | nil => exact ⟨[], rfl, rfl⟩
  | cons row rest ih =>
    cases row with
    | ok v =>
      have h' : (drainRows rest).2 = none := h
      obtain ⟨vs, h1, h2⟩ := ih h'
      exact ⟨v :: vs, by rw [List.map_cons, h1], h2⟩
    | error e => simp [drainRows] at h

/-- A clean finish of the Phase 1 loop means the whole stream was
error-free and fully consumed. -/
theorem frbLoop_exc_none_rows {ε : Type} (rows : Rows ε) (p : Printer)
    (buf : List Item) (h : (frbLoop p rows buf).exc = none) :
    ∃ vs : List Item, rows = vs.map Except.ok := by
  induction rows generalizing p buf with
  | nil => exact ⟨[], rfl⟩
  | cons row rest ih =>
    cases row with
    | error e =>
      rw [frbLoop] at h
      simp at h
    | ok v =>
      rw [frbLoop] at h
      dsimp only at h
      by_cases hover : ((match p.maxItems with
        | some limit => decide ((buf ++ [v]).length > limit)
        | none => false) : Bool) = true
      · rw [if_pos hover] at h
        cases hq : p.ellipsis with
        | fallback q =>
          rw [hq] at h
          simp at h
        | ok p1 =>
          rw [hq] at h
          dsimp only at h
          rcases hdr : drainRows rest with ⟨rem, err⟩
          rw [hdr] at h
          cases err with
          | some e => simp at h
          | none =>
            obtain ⟨vs, h1, _⟩ := drainRows_none_rows rest (by rw [hdr])
            exact ⟨v :: vs, by rw [List.map_cons, h1]⟩
      · rw [if_neg hover] at h
        cases hq : v.format p with
        | fallback q =>
          rw [hq] at h
          simp at h
        | ok p1 =>
          rw [hq] at h
          obtain ⟨vs, h1⟩ := ih p1.comma (buf ++ [v]) h
          exact ⟨v :: vs, by rw [List.map_cons, h1]⟩

/-- A clean finish of the Phase 2 streaming loop means the remaining
stream was error-free. -/
theorem frWhile_exc_none_rows {ε : Type} (rows : Rows ε) (p : Printer)
    (c : Nat) (h : (frWhile p c rows).exc = none) :
    ∃ vs : List Item, rows = vs.map Except.ok := by
  induction rows generalizing p c with
  | nil => exact ⟨[], rfl⟩
  | cons row rest ih =>
    cases row with
    | error e =>
      rw [frWhile] at h
      simp at h
    | ok v =>
      rw [frWhile] at h
      dsimp only at h
      by_cases hover : ((match p.maxItems with
        | some limit => decide (c + 1 > limit)
        | none => false) : Bool) = true
      · rw [if_pos hover] at h
        cases hq : p.ellipsis with
        | fallback q =>
          rw [hq] at h
          simp at h
        | ok p1 =>
          rw [hq] at h
          dsimp only at h
          rcases hdr : drainRows rest with ⟨rem, err⟩
          rw [hdr] at h
          cases err with
          | some e => simp at h
          | none =>
            obtain ⟨vs, h1, _⟩ := drainRows_none_rows rest (by rw [hdr])
            exact ⟨v :: vs, by rw [List.map_cons, h1]⟩
      · rw [if_neg hover] at h
        cases hq : v.format p with
        | fallback q =>
          rw [hq] at h
          simp at h
        | ok p1 =>
          rw [hq] at h
          obtain ⟨vs, h1⟩ := ih p1.comma (c + 1) h
          exact ⟨v :: vs, by rw [List.map_cons, h1]⟩

/-- A clean finish of the Phase 1 loop below the item limit is the
in-order render of the pulled sequence, with every item buffered. -/
theorem frbLoop_success_all {ε : Type} (vs : List Item) (p : Printer)
    (buf : List Item)
    (hlim : match p.maxItems with
      | some N => buf.length + vs.length ≤ N
      | none => True)
    (h : (frbLoop p (vs.map Except.ok : Rows ε) buf).exc = none) :
    ∃ pMid, renderSeq vs p = .ok pMid ∧
      frbLoop p (vs.map Except.ok : Rows ε) buf = ⟨pMid, [], buf ++ vs, none⟩ := by
  induction vs generalizing p buf with
  | nil =>
    refine ⟨p, rfl, ?_⟩
    rw [List.map_nil, frbLoop]
    simp
  | cons v vs ih =>
    rw [List.map_cons, frbLoop] at h ⊢
    dsimp only at h ⊢
    have hover : ((match p.maxItems with
      | some limit => decide ((buf ++ [v]).length > limit)
      | none => false) : Bool) = false := by
      cases hmi : p.maxItems with
      | none => rfl
      | some N =>
        rw [hmi] at hlim
        simp only [List.length_cons] at hlim
        simp only [List.length_append, List.length_cons, List.length_nil,
          decide_eq_false_iff_not, not_lt, gt_iff_lt]
        omega
    rw [hover] at h ⊢
    simp only [Bool.false_eq_true, if_false] at h ⊢
    cases hq : v.format p with
    | fallback q =>
      rw [hq] at h
      simp at h
    | ok p1 =>
      rw [hq] at h
      dsimp only at h ⊢
      have hlim1 : match p1.comma.maxItems with
        | some N => (buf ++ [v]).length + vs.length ≤ N
        | none => True := by
        rw [(comma_fields p1).2.2.2.1.mi, ((format_samecfg v p).1 p1 hq).mi]
        cases hmi : p.maxItems with
        | none => trivial
        | some N =>
          rw [hmi] at hlim
          simp only [List.length_cons] at hlim
          simp only [List.length_append, List.length_cons, List.length_nil]
          omega
      obtain ⟨pMid, h1, h2⟩ := ih p1.comma (buf ++ [v]) hlim1 h
      refine ⟨pMid, ?_, ?_⟩
      · rw [renderSeq, hq]
        exact h1
      · rw [h2]
        simp

/-- The Phase 2 streaming loop below the item limit on an error-free
stream is the in-order render of the sequence. -/
theorem frWhile_block_all {ε : Type} (vs : List Item) (p : Printer) (c : Nat)
    (hflow : p.flow = false)
    (hlim : match p.maxItems with
      | some N => c + vs.length ≤ N
      | none => True) :
    ∃ p', renderSeq vs p = .ok p' ∧ p'.flow = false ∧ SameCfg p p' ∧
      frWhile p c (vs.map Except.ok : Rows ε) = ⟨p', [], [], none⟩ := by
  induction vs generalizing p c with
  | nil =>
    refine ⟨p, rfl, hflow, SameCfg.cfgRefl p, ?_⟩
    rw [List.map_nil, frWhile]
  | cons v vs ih =>
    rw [List.map_cons, frWhile]
    dsimp only
    have hover : ((match p.maxItems with
      | some limit => decide (c + 1 > limit)
      | none => false) : Bool) = false := by
      cases hmi : p.maxItems with
      | none => rfl
      | some N =>
        rw [hmi] at hlim
        simp only [List.length_cons] at hlim
        simp only [decide_eq_false_iff_not, not_lt, gt_iff_lt]
        omega
    rw [hover]
    simp only [Bool.false_eq_true, if_false]
    obtain ⟨p1, hq, hf1, _, hcfg1⟩ := format_block v p hflow
    rw [hq]
    dsimp only
    have hlim1 : match p1.comma.maxItems with
      | some N => (c + 1) + vs.length ≤ N
      | none => True := by
      rw [(comma_fields p1).2.2.2.1.mi, hcfg1.mi]
      cases hmi : p.maxItems with
      | none => trivial
      | some N =>
        rw [hmi] at hlim
        simp only [List.length_cons] at hlim
        omega
    obtain ⟨p', h1, h2, h3, h4⟩ := ih p1.comma (c + 1)
      (by rw [(comma_fields p1).1]; exact hf1) hlim1
    refine ⟨p', ?_, h2, ?_, h4⟩
    · rw [renderSeq, hq]
      exact h1
    · exact SameCfg.cfgTrans (SameCfg.cfgTrans hcfg1 (comma_fields p1).2.2.2.1) h3

/-- The Phase 2 replay loop hitting the item limit renders exactly the
next `N - c` buffered items in order, emits the ellipsis and breaks
with the counter at `N + 1`. -/
theorem frFor_limit (buf : List Item) (p : Printer) (c N : Nat)
    (hflow : p.flow = false) (hmi : p.maxItems = some N)
    (hc : c ≤ N) (hlen : N - c < buf.length) :
    ∃ pMid pE, renderSeq (buf.take (N - c)) p = .ok pMid ∧
      pMid.flow = false ∧ pMid.ellipsis = .ok pE ∧ pE.flow = false ∧
      SameCfg p pE ∧ frFor p c buf = (.ok pE, N + 1) := by
  induction buf generalizing p c with
  | nil => simp at hlen
  | cons v vs ih =>
    rw [frFor]
    by_cases hN : c = N
    · subst hN
      have hover : ((match p.maxItems with
        | some limit => decide (c + 1 > limit)
        | none => false) : Bool) = true := by
        rw [hmi]
        simp
      rw [if_pos hover]
      obtain ⟨p1, hq, hf1, _, hcfg1⟩ := ellipsis_block hflow
      simp only [Nat.sub_self, List.take_zero]
      refine ⟨p, p1, rfl, hflow, hq, hf1, hcfg1, ?_⟩
      rw [hq]
    · have hlt : c < N := lt_of_le_of_ne hc hN
      have hover : ((match p.maxItems with
        | some limit => decide (c + 1 > limit)
        | none => false) : Bool) = false := by
        rw [hmi]
        simp only [decide_eq_false_iff_not, not_lt, gt_iff_lt]
        omega
      rw [hover]
      simp only [Bool.false_eq_true, if_false]
      obtain ⟨p1, hq, hf1, _, hcfg1⟩ := format_block v p hflow
      rw [hq]
      dsimp only
      have hlen2 : N - (c + 1) < vs.length := by
        simp only [List.length_cons] at hlen
        omega
      have hmi1 : p1.comma.maxItems = some N := by
        rw [(comma_fields p1).2.2.2.1.mi, hcfg1.mi, hmi]
      obtain ⟨pMid, pE, h1, h2, h3, h4, h5, h6⟩ := ih p1.comma (c + 1)
        (by rw [(comma_fields p1).1]; exact hf1) hmi1 (by omega) hlen2
      have htake : (v :: vs).take (N - c) = v :: vs.take (N - (c + 1)) := by
        have hs : N - c = (N - (c + 1)) + 1 := by omega
        rw [hs, List.take_succ_cons]
      refine ⟨pMid, pE, ?_, h2, h3, h4, ?_, h6⟩
      · rw [htake, renderSeq, hq]
        exact h1
      · exact SameCfg.cfgTrans (SameCfg.cfgTrans hcfg1 (comma_fields p1).2.2.2.1) h5

/-- At a fallback of the Phase 1 loop the row buffer has grown past the
item limit by at most one: a fallback during the ellipsis emission
itself is the only way to reach `N + 1` buffered items. -/
theorem frbLoop_fallback_buflen {ε : Type} (rows : Rows ε) (p : Printer)
    (buf : List Item) (N : Nat) (hmi : p.maxItems = some N)
    (hbuf : buf.length ≤ N)
    (h : (frbLoop p rows buf).exc = some .disableFlow) :
    (frbLoop p rows buf).rowBuf.length ≤ N + 1 := by
  induction rows generalizing p buf with
  | nil =>
    rw [frbLoop] at h
    simp at h
  | cons row rest ih =>
    cases row with
    | error e =>
      rw [frbLoop] at h
      simp at h
    | ok v =>
      rw [frbLoop] at h ⊢
      dsimp only at h ⊢
      by_cases hover : ((match p.maxItems with
        | some limit => decide ((buf ++ [v]).length > limit)
        | none => false) : Bool) = true
      · rw [if_pos hover] at h ⊢
        cases hq : p.ellipsis with
        | fallback q =>
          dsimp only
          simp only [List.length_append, List.length_cons, List.length_nil]
          omega
        | ok p1 =>
          rw [hq] at h
          dsimp only at h
          rcases hdr : drainRows rest with ⟨rem, err⟩
          rw [hdr] at h
          cases err <;> simp at h
      · rw [if_neg hover] at h ⊢
        cases hq : v.format p with
        | fallback q =>
          dsimp only
          simp only [List.length_append, List.length_cons, List.length_nil]
          omega
        | ok p1 =>
          rw [hq] at h
          dsimp only at h ⊢
          have hbuf1 : (buf ++ [v]).length ≤ N := by
            rw [hmi] at hover
            simp only [decide_eq_true_eq, gt_iff_lt] at hover
            omega
          have hmi1 : p1.comma.maxItems = some N := by
            rw [(comma_fields p1).2.2.2.1.mi, ((format_samecfg v p).1 p1 hq).mi, hmi]
          exact ih p1.comma (buf ++ [v]) hmi1 hbuf1 h

/-- The Phase 2 streaming loop entered with the counter already past
the limit: an empty stream ends at once; a non-empty error-free stream
triggers one further ellipsis emission and a dry drain, rendering no
item. -/
theorem frWhile_over {ε : Type} (vs : List Item) (p : Printer) (c N : Nat)
    (hflow : p.flow = false) (hmi : p.maxItems = some N) (hc : N < c) :
    (vs = [] → frWhile p c (vs.map Except.ok : Rows ε) = ⟨p, [], [], none⟩) ∧
    (vs ≠ [] → ∃ pE2, p.ellipsis = .ok pE2 ∧ pE2.flow = false ∧ SameCfg p pE2 ∧
      frWhile p c (vs.map Except.ok : Rows ε) = ⟨pE2, [], [], none⟩) := by
  constructor
  · intro hnil
    subst hnil
    rw [List.map_nil, frWhile]
  · intro hne
    cases vs with
    | nil => exact absurd rfl hne
    | cons v rest =>
      rw [List.map_cons, frWhile]
      dsimp only
      have hover : ((match p.maxItems with
        | some limit => decide (c + 1 > limit)
        | none => false) : Bool) = true := by
        rw [hmi]
        simp only [decide_eq_true_eq, gt_iff_lt]
        omega
      rw [if_pos hover]
      obtain ⟨p1, hq, hf1, _, hcfg1⟩ := ellipsis_block hflow
      refine ⟨p1, hq, hf1, hcfg1, ?_⟩
      rw [hq]
      dsimp only
      rw [drainRows_map_ok]

/-- The Phase 1 loop run during a flow attempt that finishes cleanly
keeps the flow invariant: same nesting level, commit point frozen,
committed prefix of the buffer intact. -/
theorem frbLoop_flow_ok {ε : Type} (rows : Rows ε) (p : Printer)
    (buf : List Item) (hf : p.flow = true)
    (hle : p.committedIndent ≤ p.curIndent)
    (hc : p.committed ≤ p.buffer.length)
    (h : (frbLoop p rows buf).exc = none) :
    FlowOut p (.ok (frbLoop p rows buf).prn) := by
  induction rows generalizing p buf with
  | nil =>
    rw [frbLoop]
    exact ⟨hf, rfl, SameCommitted.refl p, SameCfg.cfgRefl p, rfl, hc⟩
  | cons row rest ih =>
    cases row with
    | error e =>
      rw [frbLoop] at h
      simp at h
    | ok v =>
      rw [frbLoop] at h ⊢
      dsimp only at h ⊢
      by_cases hover : ((match p.maxItems with
        | some limit => decide ((buf ++ [v]).length > limit)
        | none => false) : Bool) = true
      · rw [if_pos hover] at h ⊢
        cases hq : p.ellipsis with
        | fallback q =>
          rw [hq] at h
          simp at h
        | ok p1 =>
          rw [hq] at h
          dsimp only at h ⊢
          rcases hdr : drainRows rest with ⟨rem, err⟩
          rw [hdr] at h
          cases err with
          | some e => simp at h
          | none =>
            dsimp only
            have hw := write_flow "..." hf hc
            rw [Printer.ellipsis] at hq
            rw [hq] at hw
            exact hw
      · rw [if_neg hover] at h ⊢
        cases hq : v.format p with
        | fallback q =>
          rw [hq] at h
          simp at h
        | ok p1 =>
          rw [hq] at h
          dsimp only at h ⊢
          have hok : FlowOut p (.ok p1.comma) := by
            refine FlowOut_ok_comma ?_
            have hw := format_flow v p hf hle hc
            rw [hq] at hw
            exact hw
          obtain ⟨a1, a2, a3, a4, a5, a6⟩ := hok
          have hrec := ih p1.comma (buf ++ [v]) a1
            (by rw [a3.2.1, a2]; exact hle)
            (by rw [a3.1]; exact a6) h
          exact FlowOut_ok_trans ⟨a1, a2, a3, a4, a5, a6⟩ hrec

/-! ## Claim theorem C4 -/

/-- C4: items appear in the native output in exactly the order they
were received from the source, on every path of the driver.
(1) When Phase 1 finishes without the signal, the source was error-free
and pulled in full, and the output is the in-order flow render of the
whole sequence — or of its first `N` items followed by the single
ellipsis when the item limit cuts in.  (2) A stream error is returned
as such: no output is produced.  (3) When the signal arrives at the
final close with the stream already exhausted, the output is the bare
committed opening token: no item text appears at all.  (4) When the
signal arrives before end-of-stream, the row buffer holds exactly the
pulled prefix in pull order with the stream field the un-pulled suffix
(so Phase 2 first replays that exact prefix, then continues pulling),
and every successful output is the in-order block render of the whole
source sequence — or of its first `N` items followed by one ellipsis,
itself followed by the spurious second ellipsis exactly when Phase 1
fell back during its own ellipsis emission and the stream was not yet
empty.  In every case the items rendered are an in-order prefix of the
source. -/
theorem emission_order_preserved {ε : Type} (rows : Rows ε) (config : Config)
    (w : Nat) (colors : Bool) :
    (((format_rows_buf (nativePrinter config w colors) rows).1).exc = none →
      ∃ vs : List Item, rows = vs.map Except.ok ∧
      ∃ p1 pC, (nativePrinter config w colors).openBlock "\x7b" = .ok true p1 ∧
        _native_format rows config w colors = some (.ok pC.endRender.output) ∧
        ((∃ pMid, renderSeq vs p1 = .ok pMid ∧
            pMid.closeBlock "\x7d" true = .ok pC) ∨
         (∃ N pMid pE, config.maxItems = some N ∧ N < vs.length ∧
            renderSeq (vs.take N) p1 = .ok pMid ∧ pMid.ellipsis = .ok pE ∧
            pE.closeBlock "\x7d" true = .ok pC))) ∧
    (∀ e : ε, ((format_rows_buf (nativePrinter config w colors) rows).1).exc =
        some (.error e) →
      _native_format rows config w colors = some (.error (.streamErr e))) ∧
    (((format_rows_buf (nativePrinter config w colors) rows).1).exc =
        some .disableFlow →
      (format_rows_buf (nativePrinter config w colors) rows).2 = true →
      _native_format rows config w colors = some (.ok "\x7b".data)) ∧
    (((format_rows_buf (nativePrinter config w colors) rows).1).exc =
        some .disableFlow →
      (format_rows_buf (nativePrinter config w colors) rows).2 = false →
      ∃ vs1 : List Item,
        rows.take vs1.length = vs1.map Except.ok ∧
        ((format_rows_buf (nativePrinter config w colors) rows).1).rowBuf = vs1 ∧
        ((format_rows_buf (nativePrinter config w colors) rows).1).rows =
          rows.drop vs1.length ∧
        ∀ out, _native_format rows config w colors = some (.ok out) →
          ∃ vs : List Item, rows = vs.map Except.ok ∧
          ∃ pC, out = pC.endRender.output ∧
            ((∃ pMid, renderSeq vs
                (((format_rows_buf (nativePrinter config w colors)
                  rows).1).prn.reopenBlock) = .ok pMid ∧
                pMid.closeBlock "\x7d" true = .ok pC) ∨
             (∃ N pMid pE, config.maxItems = some N ∧ N < vs.length ∧
                renderSeq (vs.take N)
                  (((format_rows_buf (nativePrinter config w colors)
                    rows).1).prn.reopenBlock) = .ok pMid ∧
                pMid.ellipsis = .ok pE ∧
                (pE.closeBlock "\x7d" true = .ok pC ∨
                 (∃ pE2, pE.ellipsis = .ok pE2 ∧
                    pE2.closeBlock "\x7d" true = .ok pC))))) := by
  obtain ⟨p1, hob, hf1, hi1, hci1, hcb1, hcc1, hd1, hcfg1, hbuf1⟩ :=
    openBlock_block (p := nativePrinter config w colors) "\x7b" rfl
  refine ⟨?_, ?_, ?_, ?_⟩
  · -- (1) exc = none
    intro h
    unfold format_rows_buf at h
    rw [hob] at h
    dsimp only at h
    cases hexc : (frbLoop p1 rows []).exc with
    | some e =>
      rw [hexc] at h
      dsimp only at h
      simp at h
    | none =>
      rw [hexc] at h
      dsimp only at h
      obtain ⟨vs, hvs⟩ := frbLoop_exc_none_rows rows p1 [] hexc
      subst hvs
      cases hcb : (frbLoop p1 (vs.map Except.ok : Rows ε) []).prn.closeBlock "\x7d" true with
      | fallback q =>
        rw [hcb] at h
        simp at h
      | ok pC =>
        have hfb : format_rows_buf (nativePrinter config w colors)
            (vs.map Except.ok : Rows ε) =
            (⟨pC, (frbLoop p1 (vs.map Except.ok : Rows ε) []).rows,
              (frbLoop p1 (vs.map Except.ok : Rows ε) []).rowBuf, none⟩, true) := by
          unfold format_rows_buf
          rw [hob]
          dsimp only
          rw [hexc]
          dsimp only
          rw [hcb]
        refine ⟨vs, rfl, p1, pC, hob, ?_, ?_⟩
        · unfold _native_format
          dsimp only
          rw [hfb]
        · have hmi1 : p1.maxItems = config.maxItems := hcfg1.mi
          cases hmi : config.maxItems with
          | none =>
            obtain ⟨pMid, hr, hloop⟩ := frbLoop_success_all vs p1 []
              (by rw [hmi1, hmi]; trivial) hexc
            rw [hloop] at hcb
            exact Or.inl ⟨pMid, hr, hcb⟩
          | some N =>
            by_cases hlen : N < vs.length
            · obtain ⟨pMid, pE, hr, hE, hloop⟩ := frbLoop_success_limit vs p1 [] N
                (by rw [hmi1, hmi]) (by simp) (by simpa using hlen) hexc
              rw [hloop] at hcb
              refine Or.inr ⟨N, pMid, pE, rfl, hlen, ?_, hE, hcb⟩
              simpa using hr
            · obtain ⟨pMid, hr, hloop⟩ := frbLoop_success_all vs p1 []
                (by rw [hmi1, hmi]; simpa using Nat.le_of_not_lt hlen) hexc
              rw [hloop] at hcb
              exact Or.inl ⟨pMid, hr, hcb⟩
  · -- (2) stream error
    intro e h
    unfold _native_format
    dsimp only
    rw [h]
  · -- (3) signal at the final close, stream exhausted
    intro h heos
    unfold format_rows_buf at h heos
    rw [hob] at h heos
    dsimp only at h heos
    cases hexc : (frbLoop p1 rows []).exc with
    | some e =>
      rw [hexc] at h heos
      dsimp only at h heos
      cases e with
      | error e0 => simp at h
      | disableFlow => simp at heos
    | none =>
      rw [hexc] at h heos
      dsimp only at h heos
      cases hcb : (frbLoop p1 rows []).prn.closeBlock "\x7d" true with
      | ok p2 =>
        rw [hcb] at h
        simp at h
      | fallback q =>
        obtain ⟨lf, li, lcm, lcfg, lbuf, lle⟩ := frbLoop_flow_ok rows p1 [] hf1
          (by rw [hci1, hi1]) (le_of_eq hcb1) hexc
        have hclose := closeBlock_flow "\x7d" true lf (by rw [lcm.1]; exact lle)
        rw [hcb] at hclose
        obtain ⟨_, _, qcm, qcfg, qbuf, _⟩ := hclose
        have hqbuf : q.buffer = "\x7b".data := by
          rw [qbuf, lcm.1, lbuf, hcb1, List.take_length, hbuf1]
          rfl
        have hqout : q.output = [] :=
          (SameCfg.cfgTrans hcfg1 (SameCfg.cfgTrans lcfg qcfg)).outEq
        have hfb : format_rows_buf (nativePrinter config w colors) rows =
            (⟨q, (frbLoop p1 rows []).rows,
              (frbLoop p1 rows []).rowBuf, some .disableFlow⟩, true) := by
          unfold format_rows_buf
          rw [hob]
          dsimp only
          rw [hexc]
          dsimp only
          rw [hcb]
        unfold _native_format
        dsimp only
        rw [hfb]
        dsimp only
        simp [Printer.endRender, hqout, hqbuf]
  · -- (4) signal before end-of-stream
    intro h heos
    obtain ⟨⟨vs1, htake, hbuf, hrows⟩, heqn⟩ :=
      native_fallback_phase2_aux rows config w colors h heos
    have hloopd : (frbLoop p1 rows []).exc = some .disableFlow ∧
        format_rows_buf (nativePrinter config w colors) rows =
          (⟨(frbLoop p1 rows []).prn, (frbLoop p1 rows []).rows,
            (frbLoop p1 rows []).rowBuf, some .disableFlow⟩, false) := by
      unfold format_rows_buf at h heos ⊢
      rw [hob] at h heos ⊢
      dsimp only at h heos ⊢
      cases hexc0 : (frbLoop p1 rows []).exc with
      | none =>
        rw [hexc0] at h heos
        dsimp only at h heos
        cases hcb : (frbLoop p1 rows []).prn.closeBlock "\x7d" true with
        | ok p2 =>
          rw [hcb] at h
          simp at h
        | fallback q =>
          rw [hcb] at heos
          simp at heos
      | some e =>
        rw [hexc0] at h
        dsimp only at h ⊢
        cases e with
        | error e0 => simp at h
        | disableFlow => exact ⟨rfl, rfl⟩
    obtain ⟨hexc0, hfbEq⟩ := hloopd
    have hv1bound : ∀ N, config.maxItems = some N → vs1.length ≤ N + 1 := by
      intro N hmi
      have hmi1 : p1.maxItems = some N := by
        rw [hcfg1.mi]
        exact hmi
      have hb := frbLoop_fallback_buflen rows p1 [] N hmi1 (by simp) hexc0
      have hconn : (format_rows_buf (nativePrinter config w colors) rows).1.rowBuf =
          (frbLoop p1 rows []).rowBuf := by rw [hfbEq]
      rw [hbuf] at hconn
      rw [← hconn] at hb
      exact hb
    refine ⟨vs1, htake, hbuf, hrows, ?_⟩
    intro out hout
    rw [heqn, hbuf, hrows] at hout
    cases hexc2 : (format_rows
        ((format_rows_buf (nativePrinter config w colors) rows).1).prn vs1
        (rows.drop vs1.length)).exc with
    | some e2 =>
      rw [hexc2] at hout
      cases e2 <;> simp at hout
    | none =>
      rw [hexc2] at hout
      dsimp only at hout
      simp only [Option.some.injEq, Except.ok.injEq] at hout
      -- the remaining stream is error-free
      have hre := reopenBlock_fields
        ((format_rows_buf (nativePrinter config w colors) rows).1).prn
      obtain ⟨pf1, hfor, hff1, _, hfcfg1⟩ := frFor_block vs1
        ((format_rows_buf (nativePrinter config w colors)
          rows).1).prn.reopenBlock 0 hre.1
      have hpair : frFor ((format_rows_buf (nativePrinter config w colors)
          rows).1).prn.reopenBlock 0 vs1 =
          (.ok pf1, (frFor ((format_rows_buf (nativePrinter config w colors)
            rows).1).prn.reopenBlock 0 vs1).2) := by
        rw [← hfor]
      have hexc3 := hexc2
      unfold format_rows at hexc3
      dsimp only at hexc3
      rw [hpair] at hexc3
      dsimp only at hexc3
      cases hwexc : (frWhile pf1 (frFor ((format_rows_buf
          (nativePrinter config w colors) rows).1).prn.reopenBlock 0 vs1).2
          (rows.drop vs1.length)).exc with
      | some e3 =>
        rw [hwexc] at hexc3
        dsimp only at hexc3
        simp at hexc3
      | none =>
        obtain ⟨vs2, hvs2⟩ := frWhile_exc_none_rows (rows.drop vs1.length)
          pf1 _ hwexc
        have hcat : rows = (vs1 ++ vs2).map Except.ok := by
          rw [List.map_append, ← htake, ← hvs2, List.take_append_drop]
        subst hcat
        refine ⟨vs1 ++ vs2, rfl, ?_⟩
        have hmiF : ((format_rows_buf (nativePrinter config w colors)
            ((vs1 ++ vs2).map Except.ok : Rows ε)).1).prn.maxItems =
            config.maxItems :=
          (format_rows_buf_samecfg (nativePrinter config w colors)
            ((vs1 ++ vs2).map Except.ok)).mi
        have hmi0 : (((format_rows_buf (nativePrinter config w colors)
            ((vs1 ++ vs2).map Except.ok : Rows ε)).1).prn.reopenBlock).maxItems =
            config.maxItems := by
          rw [hre.2.2.1.mi, hmiF]
        rw [hvs2] at hexc2 hout
        cases hmi : config.maxItems with
        | none =>
          have hconvEq : format_rows ((format_rows_buf
              (nativePrinter config w colors)
              ((vs1 ++ vs2).map Except.ok : Rows ε)).1).prn vs1
              (vs2.map Except.ok : Rows ε) =
              format_rows ((format_rows_buf (nativePrinter config w colors)
                ((vs1 ++ vs2).map Except.ok : Rows ε)).1).prn []
                ((vs1 ++ vs2).map Except.ok : Rows ε) := by
            rw [format_rows_concat _ _ _ (fun N hN => by
              rw [hmiF, hmi] at hN
              exact Option.noConfusion hN), ← List.map_append]
          obtain ⟨pW, hrend, hWf, _, hwhEq⟩ := frWhile_block_all (vs1 ++ vs2)
            (((format_rows_buf (nativePrinter config w colors)
              ((vs1 ++ vs2).map Except.ok : Rows ε)).1).prn.reopenBlock) 0
            hre.1 (by rw [hmi0, hmi]; trivial)
          obtain ⟨pC, hcloseEq, _, _, _⟩ := closeBlock_block "\x7d" true hWf
          have hform : format_rows ((format_rows_buf
              (nativePrinter config w colors)
              ((vs1 ++ vs2).map Except.ok : Rows ε)).1).prn []
              ((vs1 ++ vs2).map Except.ok : Rows ε) = ⟨pC, [], [], none⟩ := by
            unfold format_rows
            dsimp only
            rw [frFor]
            dsimp only
            rw [hwhEq]
            dsimp only
            rw [hcloseEq]
          rw [hconvEq, hform] at hout
          exact ⟨pC, hout.symm, Or.inl ⟨pW, hrend, hcloseEq⟩⟩
        | some N =>
          by_cases hv1len : vs1.length ≤ N
          · -- the buffered prefix fits the limit: one in-order pass
            have hconvEq : format_rows ((format_rows_buf
                (nativePrinter config w colors)
                ((vs1 ++ vs2).map Except.ok : Rows ε)).1).prn vs1
                (vs2.map Except.ok : Rows ε) =
                format_rows ((format_rows_buf (nativePrinter config w colors)
                  ((vs1 ++ vs2).map Except.ok : Rows ε)).1).prn []
                  ((vs1 ++ vs2).map Except.ok : Rows ε) := by
              rw [format_rows_concat _ _ _ (fun N' hN' => by
                rw [hmiF, hmi] at hN'
                rw [← Option.some.inj hN']
                exact hv1len), ← List.map_append]
            by_cases hlen : N < (vs1 ++ vs2).length
            · obtain ⟨pMid, pE, hr, _, hE, hEf, _, hwhEq⟩ := frWhile_block_limit
                (vs1 ++ vs2)
                (((format_rows_buf (nativePrinter config w colors)
                  ((vs1 ++ vs2).map Except.ok : Rows ε)).1).prn.reopenBlock) 0 N
                hre.1 (by rw [hmi0, hmi]) (Nat.zero_le N) (by simpa using hlen)
              obtain ⟨pC, hcloseEq, _, _, _⟩ := closeBlock_block "\x7d" true hEf
              have hform : format_rows ((format_rows_buf
                  (nativePrinter config w colors)
                  ((vs1 ++ vs2).map Except.ok : Rows ε)).1).prn []
                  ((vs1 ++ vs2).map Except.ok : Rows ε) = ⟨pC, [], [], none⟩ := by
                unfold format_rows
                dsimp only
                rw [frFor]
                dsimp only
                rw [hwhEq]
                dsimp only
                rw [hcloseEq]
              rw [hconvEq, hform] at hout
              refine ⟨pC, hout.symm,
                Or.inr ⟨N, pMid, pE, rfl, hlen, ?_, hE, Or.inl hcloseEq⟩⟩
              simpa using hr
            · obtain ⟨pW, hrend, hWf, _, hwhEq⟩ := frWhile_block_all (vs1 ++ vs2)
                (((format_rows_buf (nativePrinter config w colors)
                  ((vs1 ++ vs2).map Except.ok : Rows ε)).1).prn.reopenBlock) 0
                hre.1 (by rw [hmi0, hmi]; simpa using Nat.le_of_not_lt hlen)
              obtain ⟨pC, hcloseEq, _, _, _⟩ := closeBlock_block "\x7d" true hWf
              have hform : format_rows ((format_rows_buf
                  (nativePrinter config w colors)
                  ((vs1 ++ vs2).map Except.ok : Rows ε)).1).prn []
                  ((vs1 ++ vs2).map Except.ok : Rows ε) = ⟨pC, [], [], none⟩ := by
                unfold format_rows
                dsimp only
                rw [frFor]
                dsimp only
                rw [hwhEq]
                dsimp only
                rw [hcloseEq]
              rw [hconvEq, hform] at hout
              exact ⟨pC, hout.symm, Or.inl ⟨pW, hrend, hcloseEq⟩⟩
          · -- the fallback struck during the Phase 1 ellipsis emission:
            -- the buffer holds N + 1 items and Phase 2 re-hits the limit
            have hv1eq : vs1.length = N + 1 := by
              have := hv1bound N hmi
              omega
            obtain ⟨pMid, pE, hr, _, hE, hEf, hcfgE, hforEq⟩ := frFor_limit vs1
              (((format_rows_buf (nativePrinter config w colors)
                ((vs1 ++ vs2).map Except.ok : Rows ε)).1).prn.reopenBlock) 0 N
              hre.1 (by rw [hmi0, hmi]) (Nat.zero_le N) (by omega)
            have hmiE : pE.maxItems = some N := by
              rw [hcfgE.mi, hmi0, hmi]
            have hover := @frWhile_over ε vs2 pE (N + 1) N hEf hmiE (by omega)
            have hNlt : N < (vs1 ++ vs2).length := by
              simp only [List.length_append]
              omega
            have htk : (vs1 ++ vs2).take N = vs1.take N :=
              List.take_append_of_le_length (by omega)
            by_cases hv2 : vs2 = []
            · have hwhEq := hover.1 hv2
              obtain ⟨pC, hcloseEq, _, _, _⟩ := closeBlock_block "\x7d" true hEf
              have hform : format_rows ((format_rows_buf
                  (nativePrinter config w colors)
                  ((vs1 ++ vs2).map Except.ok : Rows ε)).1).prn vs1
                  (vs2.map Except.ok : Rows ε) = ⟨pC, [], [], none⟩ := by
                unfold format_rows
                dsimp only
                rw [hforEq]
                dsimp only
                rw [hwhEq]
                dsimp only
                rw [hcloseEq]
              rw [hform] at hout
              refine ⟨pC, hout.symm,
                Or.inr ⟨N, pMid, pE, rfl, hNlt, ?_, hE, Or.inl hcloseEq⟩⟩
              rw [htk]
              simpa using hr
            · obtain ⟨pE2, hE2, hE2f, _, hwhEq⟩ := hover.2 hv2
              obtain ⟨pC, hcloseEq, _, _, _⟩ := closeBlock_block "\x7d" true hE2f
              have hform : format_rows ((format_rows_buf
                  (nativePrinter config w colors)
                  ((vs1 ++ vs2).map Except.ok : Rows ε)).1).prn vs1
                  (vs2.map Except.ok : Rows ε) = ⟨pC, [], [], none⟩ := by
                unfold format_rows
                dsimp only
                rw [hforEq]
                dsimp only
                rw [hwhEq]
                dsimp only
                rw [hcloseEq]
              rw [hform] at hout
              refine ⟨pC, hout.symm,
                Or.inr ⟨N, pMid, pE, rfl, hNlt, ?_, hE,
                  Or.inr ⟨pE2, hE2, hcloseEq⟩⟩⟩
              rw [htk]
              simpa using hr

/-- Witness for C4 at a concrete input: one scalar item overflowing
width 3 (no item limit) raises the signal before end-of-stream, so the
Phase 1 to Phase 2 transition clause applies. -/
theorem emission_order_preserved_witness :
    ((format_rows_buf (nativePrinter Config.new 3 false)
        ([.ok (.scalar "aaaa")] : Rows Unit)).1).exc = some .disableFlow ∧
    (format_rows_buf (nativePrinter Config.new 3 false)
        ([.ok (.scalar "aaaa")] : Rows Unit)).2 = false ∧
    ∃ vs1 : List Item,
      ([.ok (.scalar "aaaa")] : Rows Unit).take vs1.length = vs1.map Except.ok ∧
      ((format_rows_buf (nativePrinter Config.new 3 false)
          ([.ok (.scalar "aaaa")] : Rows Unit)).1).rowBuf = vs1 ∧
      ((format_rows_buf (nativePrinter Config.new 3 false)
          ([.ok (.scalar "aaaa")] : Rows Unit)).1).rows =
        ([.ok (.scalar "aaaa")] : Rows Unit).drop vs1.length ∧
      ∀ out, _native_format ([.ok (.scalar "aaaa")] : Rows Unit)
          Config.new 3 false = some (.ok out) →
        ∃ vs : List Item,
          ([.ok (.scalar "aaaa")] : Rows Unit) = vs.map Except.ok ∧
        ∃ pC, out = pC.endRender.output ∧
          ((∃ pMid, renderSeq vs
              (((format_rows_buf (nativePrinter Config.new 3 false)
                ([.ok (.scalar "aaaa")] : Rows Unit)).1).prn.reopenBlock) =
              .ok pMid ∧
              pMid.closeBlock "\x7d" true = .ok pC) ∨
           (∃ N pMid pE, Config.new.maxItems = some N ∧ N < vs.length ∧
              renderSeq (vs.take N)
                (((format_rows_buf (nativePrinter Config.new 3 false)
                  ([.ok (.scalar "aaaa")] : Rows Unit)).1).prn.reopenBlock) =
                .ok pMid ∧
              pMid.ellipsis = .ok pE ∧
              (pE.closeBlock "\x7d" true = .ok pC ∨
               (∃ pE2, pE.ellipsis = .ok pE2 ∧
                  pE2.closeBlock "\x7d" true = .ok pC)))) :=
  ⟨by decide, by decide,
    (emission_order_preserved ([.ok (.scalar "aaaa")] : Rows Unit)
      Config.new 3 false).2.2.2 (by decide) (by decide)⟩

/-! ## Claim theorem C3 -/

/-- C3 (amended): with `max_items = N` and an error-free source of
`M > N` items, the native render produces the rendering of exactly the
first `N` items followed by exactly one ellipsis emission and the block
close, and the source is fully drained — provided the fallback signal
is not raised during the Phase 1 ellipsis emission itself (the row
buffer at a fallback holds at most `N` items) and not at the final
close after the stream was already drained. -/
theorem item_limit_ellipsis_drain {ε : Type} (vs : List Item) (config : Config)
    (w : Nat) (colors : Bool) (N : Nat)
    (hmi : config.maxItems = some N) (hM : N < vs.length)
    (hedge1 : (format_rows_buf (nativePrinter config w colors)
        (vs.map Except.ok : Rows ε)).2 = true →
      ((format_rows_buf (nativePrinter config w colors)
        (vs.map Except.ok : Rows ε)).1).exc ≠ some .disableFlow)
    (hedge2 : ((format_rows_buf (nativePrinter config w colors)
        (vs.map Except.ok : Rows ε)).1).exc = some .disableFlow →
      (((format_rows_buf (nativePrinter config w colors)
        (vs.map Except.ok : Rows ε)).1).rowBuf).length ≤ N) :
    (∃ pStart pMid pE pC,
      renderSeq (vs.take N) pStart = .ok pMid ∧
      pMid.ellipsis = .ok pE ∧
      pE.closeBlock "\x7d" true = .ok pC ∧
      _native_format (vs.map Except.ok : Rows ε) config w colors =
        some (.ok pC.endRender.output)) ∧
    (((format_rows_buf (nativePrinter config w colors)
        (vs.map Except.ok : Rows ε)).1).exc = none →
      ((format_rows_buf (nativePrinter config w colors)
        (vs.map Except.ok : Rows ε)).1).rows = []) ∧
    (((format_rows_buf (nativePrinter config w colors)
        (vs.map Except.ok : Rows ε)).1).exc = some .disableFlow →
      (format_rows ((format_rows_buf (nativePrinter config w colors)
          (vs.map Except.ok : Rows ε)).1).prn
        ((format_rows_buf (nativePrinter config w colors)
          (vs.map Except.ok : Rows ε)).1).rowBuf
        ((format_rows_buf (nativePrinter config w colors)
          (vs.map Except.ok : Rows ε)).1).rows).rows = []) := by
  obtain ⟨p1, hob, hf1, hi1, hci1, hcb1, hcc1, hd1, hcfg1, _⟩ :=
    openBlock_block (p := nativePrinter config w colors) "\x7b" rfl
  have hmi1 : p1.maxItems = some N := by
    rw [hcfg1.mi]
    exact hmi
  cases hexc2 : (frbLoop p1 (vs.map Except.ok : Rows ε) []).exc with
  | none =>
    obtain ⟨pMid, pE, h1, h2, h3⟩ := frbLoop_success_limit vs p1 [] N hmi1
      (by simp) (by simpa using hM) hexc2
    simp only [List.length_nil, Nat.sub_zero, List.nil_append] at h1 h3
    cases hcb : pE.closeBlock "\x7d" true with
    | fallback q =>
      have hfb : format_rows_buf (nativePrinter config w colors)
          (vs.map Except.ok : Rows ε) =
          (⟨q, [], vs.take (N + 1), some .disableFlow⟩, true) := by
        unfold format_rows_buf
        rw [hob]
        dsimp only
        rw [h3]
        dsimp only
        rw [hcb]
      exact absurd (show (format_rows_buf (nativePrinter config w colors)
          (vs.map Except.ok : Rows ε)).1.exc = some .disableFlow by rw [hfb])
        (hedge1 (by rw [hfb]))
    | ok pC =>
      have hfb : format_rows_buf (nativePrinter config w colors)
          (vs.map Except.ok : Rows ε) =
          (⟨pC, [], vs.take (N + 1), none⟩, true) := by
        unfold format_rows_buf
        rw [hob]
        dsimp only
        rw [h3]
        dsimp only
        rw [hcb]
      refine ⟨⟨p1, pMid, pE, pC, h1, h2, hcb, ?_⟩, ?_, ?_⟩
      · unfold _native_format
        dsimp only
        rw [hfb]
      · intro _
        rw [hfb]
      · intro hcontra
        rw [hfb] at hcontra
        exact absurd hcontra (by simp)
  | some exc =>
    cases exc with
    | error e => exact absurd hexc2 (frbLoop_map_ok_no_error vs p1 [] e)
    | disableFlow =>
      have hfb : format_rows_buf (nativePrinter config w colors)
          (vs.map Except.ok : Rows ε) =
          (⟨(frbLoop p1 (vs.map Except.ok : Rows ε) []).prn,
            (frbLoop p1 (vs.map Except.ok : Rows ε) []).rows,
            (frbLoop p1 (vs.map Except.ok : Rows ε) []).rowBuf,
            some .disableFlow⟩, false) := by
        unfold format_rows_buf
        rw [hob]
        dsimp only
        rw [hexc2]
      obtain ⟨vs1, htake, hbuf, hrows⟩ :=
        frbLoop_fallback_prefix (vs.map Except.ok : Rows ε) p1 [] hexc2
      simp only [List.nil_append] at hbuf
      have hlRow : (frbLoop p1 (vs.map Except.ok : Rows ε) []).rowBuf.length ≤ N := by
        have := hedge2 (by rw [hfb])
        rw [hfb] at this
        exact this
      have hmiL : (frbLoop p1 (vs.map Except.ok : Rows ε) []).prn.maxItems =
          some N := by
        rw [(frbLoop_samecfg (vs.map Except.ok : Rows ε) p1 []).mi, hmi1]
      have hjoin : ((frbLoop p1 (vs.map Except.ok : Rows ε) []).rowBuf.map
          Except.ok : Rows ε) ++ (frbLoop p1 (vs.map Except.ok : Rows ε) []).rows =
          vs.map Except.ok := by
        rw [hbuf, hrows, ← htake, List.take_append_drop]
      have hconvEq : format_rows (frbLoop p1 (vs.map Except.ok : Rows ε) []).prn
          (frbLoop p1 (vs.map Except.ok : Rows ε) []).rowBuf
          (frbLoop p1 (vs.map Except.ok : Rows ε) []).rows =
          format_rows (frbLoop p1 (vs.map Except.ok : Rows ε) []).prn []
            (vs.map Except.ok : Rows ε) := by
        rw [format_rows_concat _ _ _ (fun N' hmi' => by
          rw [hmiL] at hmi'
          rw [← Option.some.inj hmi']
          exact hlRow), hjoin]
      have hre := reopenBlock_fields (frbLoop p1 (vs.map Except.ok : Rows ε) []).prn
      have hmi0 : ((frbLoop p1 (vs.map Except.ok : Rows ε) []).prn.reopenBlock).maxItems =
          some N := by
        rw [hre.2.2.1.mi, hmiL]
      obtain ⟨pMid, pE, hr1, hrf, hr2, hrE, hcfgE, h6⟩ :=
        frWhile_block_limit vs
          (frbLoop p1 (vs.map Except.ok : Rows ε) []).prn.reopenBlock 0 N
          hre.1 hmi0 (Nat.zero_le N) (by simpa using hM)
      simp only [Nat.sub_zero] at hr1
      obtain ⟨pC, hcb2, _, _, _⟩ := closeBlock_block "\x7d" true hrE
      have hform : format_rows (frbLoop p1 (vs.map Except.ok : Rows ε) []).prn []
          (vs.map Except.ok : Rows ε) = ⟨pC, [], [], none⟩ := by
        unfold format_rows
        dsimp only
        rw [frFor]
        dsimp only
        rw [h6]
        dsimp only
        rw [hcb2]
      have heqn := (native_fallback_phase2_aux (vs.map Except.ok : Rows ε)
        config w colors (by rw [hfb]) (by rw [hfb])).2
      refine ⟨⟨(frbLoop p1 (vs.map Except.ok : Rows ε) []).prn.reopenBlock,
        pMid, pE, pC, hr1, hr2, hcb2, ?_⟩, ?_, ?_⟩
      · rw [heqn]
        rw [show (format_rows_buf (nativePrinter config w colors)
            (vs.map Except.ok : Rows ε)).1.prn =
            (frbLoop p1 (vs.map Except.ok : Rows ε) []).prn by rw [hfb]]
        rw [show (format_rows_buf (nativePrinter config w colors)
            (vs.map Except.ok : Rows ε)).1.rowBuf =
            (frbLoop p1 (vs.map Except.ok : Rows ε) []).rowBuf by rw [hfb]]
        rw [show (format_rows_buf (nativePrinter config w colors)
            (vs.map Except.ok : Rows ε)).1.rows =
            (frbLoop p1 (vs.map Except.ok : Rows ε) []).rows by rw [hfb]]
        rw [hconvEq, hform]
      · intro hcontra
        rw [hfb] at hcontra
        exact absurd hcontra (by simp)
      · intro _
        rw [show (format_rows_buf (nativePrinter config w colors)
            (vs.map Except.ok : Rows ε)).1.prn =
            (frbLoop p1 (vs.map Except.ok : Rows ε) []).prn by rw [hfb]]
        rw [show (format_rows_buf (nativePrinter config w colors)
            (vs.map Except.ok : Rows ε)).1.rowBuf =
            (frbLoop p1 (vs.map Except.ok : Rows ε) []).rowBuf by rw [hfb]]
        rw [show (format_rows_buf (nativePrinter config w colors)
            (vs.map Except.ok : Rows ε)).1.rows =
            (frbLoop p1 (vs.map Except.ok : Rows ε) []).rows by rw [hfb]]
        rw [hconvEq, hform]

/-- Counterexample to C3 as stated: with `max_items = 1`, width 6 and
the three-item stream `"aa","bb","cc"`, the fallback signal is raised
during the Phase 1 ellipsis emission, at which point the row buffer
already holds two items; Phase 2 replays those two buffered items
against the limit and emits its own ellipsis, so the output contains
two ellipsis markers (six dots in total), not exactly one. -/
theorem double_ellipsis_counterexample :
    _native_format ([.ok (.scalar "aa"), .ok (.scalar "bb"), .ok (.scalar "cc")] :
        Rows Unit) { Config.new with maxItems := some 1 } 6 false =
      some (.ok "\x7b\n  aa,\n  ......\n\x7d".data) ∧
    List.count '.' "\x7b\n  aa,\n  ......\n\x7d".data = 6 ∧
    List.count '.' "...".data = 3 := by decide

/-- Witness for C3 (amended): the two-item stream `"aa","bb"` with
`max_items = 1` and width 80 satisfies the side conditions (Phase 1
succeeds, so no fallback is raised at all) and renders as the first
item, one ellipsis and the close. -/
theorem item_limit_ellipsis_drain_witness :
    ({ Config.new with maxItems := some 1 } : Config).maxItems = some 1 ∧
    1 < [Item.scalar "aa", Item.scalar "bb"].length ∧
    ∃ pStart pMid pE pC,
      renderSeq ([Item.scalar "aa", Item.scalar "bb"].take 1) pStart = .ok pMid ∧
      pMid.ellipsis = .ok pE ∧
      pE.closeBlock "\x7d" true = .ok pC ∧
      _native_format ([Item.scalar "aa", Item.scalar "bb"].map Except.ok : Rows Unit)
        { Config.new with maxItems := some 1 } 80 false =
        some (.ok pC.endRender.output) :=
  ⟨by decide, by decide,
    (item_limit_ellipsis_drain [Item.scalar "aa", Item.scalar "bb"]
      { Config.new with maxItems := some 1 } 80 false 1
      (by decide) (by decide) (by decide) (by decide)).1⟩

end EdgedbPrint
